import Mathlib

/-!
The expiration decision engine of expire-chats.

A shallow embedding of `src/expire-chats.js` (a SillyTavern extension that deletes
chats and chat backups older than a threshold) and theorems about it.

Modelling conventions.

* JavaScript values that the code tests for truthiness or compares with `===`
  are values of `JSVal`.
* Objects compared by reference (`characters.indexOf(character)`) carry an
  object identity `oid`.
* `moment` and the host function `timestampToMoment` are libraries outside the
  repository.  A moment is a validity flag and a wall-clock reading in
  milliseconds (epoch milliseconds plus the zone offset); `a.diff(b, 'days')`
  is `(a - b - zoneDelta) / 864e5` truncated toward zero, which is the
  truncated difference of the two wall-clock readings.  The parsers are
  fields of `Host`, so every theorem quantifies over them.
* `async` functions run sequentially; a collaborator call is an event appended
  to a trace and its response is read from `World`.
* An object literal used as a dictionary is the list of its own properties in
  creation order; a read of a missing key falls through to `Object.prototype`.
-/

namespace ExpireChats

/-! ## JavaScript values -/

/-- The JavaScript values a field read by the code can hold. -/
inductive JSVal where
  | undefined
  | null
  | bool (b : Bool)
  | str (s : String)
  | num (n : Int)
  deriving DecidableEq, Repr

/-- JavaScript truthiness: `undefined`, `null`, `false`, `''` and `0` are
falsy. -/
def JSVal.truthy : JSVal → Bool
  | .undefined => false
  | .null => false
  | .bool b => b
  | .str s => decide (s ≠ "")
  | .num n => decide (n ≠ 0)

/-- Strip `pat` from the front of `s` when `s` starts with it. -/
def dropPrefix? : List Char → List Char → Option (List Char)
  | [], s => some s
  | _ :: _, [] => none
  | p :: ps, c :: cs => if p = c then dropPrefix? ps cs else none

/-- The result of `s.replace(pat, '')` on the characters of a string: the first
occurrence of `pat`, scanning from the left, is removed. -/
def replaceFirst (pat : List Char) : List Char → List Char
  | [] => []
  | c :: cs =>
    match dropPrefix? pat (c :: cs) with
    | some rest => rest
    | none => c :: replaceFirst pat cs

/-- The expression `file_name.replace('.jsonl', '')`. -/
def replaceJsonl (file_name : String) : String :=
  ⟨replaceFirst ".jsonl".data file_name.data⟩

/-! ## Data model -/

/-- A loaded character object. -/
structure Character where
  oid : Nat
  name : String
  avatar : JSVal
  chat : JSVal
  deriving DecidableEq, Repr

/-- A loaded group object. -/
structure Group where
  id : JSVal
  name : String
  deriving DecidableEq, Repr

/-- One entry of a `/api/chats/search` response. -/
structure ChatData where
  file_name : String
  last_mes : JSVal
  deriving DecidableEq, Repr

/-- An element of `allChats`: the object pushed by `getAllChats`; a field that
the object literal does not set is `none` (`undefined`). -/
structure ChatInfo where
  character : Option Character
  group : Option Group
  chatData : ChatData
  isGroup : Bool
  deriving DecidableEq, Repr

/-- A moment object: validity and wall-clock milliseconds. -/
structure Moment where
  valid : Bool
  wall : Int
  deriving DecidableEq, Repr

/-- The stored object `extensionSettings[MODULE_NAME]`; a key that the object
does not own is `none`. -/
structure StoredSettings where
  expirationDays : Option JSVal
  expireBackups : Option JSVal
  autoExpire : Option JSVal
  deriving DecidableEq, Repr

/-- The settings object returned by `getSettings`. -/
structure Settings where
  expirationDays : JSVal
  expireBackups : JSVal
  autoExpire : JSVal
  deriving DecidableEq, Repr

/-- The libraries and the host state (`SillyTavern.getContext()`) that the
extension reads.  The arrays hold objects only. -/
structure Host where
  /-- The wall-clock reading of `moment()`.  Each filter reads the clock once;
  a pass uses one reading for both filters. -/
  now : Int
  /-- The host function `timestampToMoment` of `utils.js`; `.error` is a throw. -/
  timestampToMoment : JSVal → Except String Moment
  /-- The call `moment(timestampStr, 'YYYYMMDD--HHmmss')`; `.error` is a throw. -/
  momentFormat : String → Except String Moment
  /-- The call `moment(backup.mtime)`. -/
  momentOf : JSVal → Moment
  /-- The array `SillyTavern.getContext().characters`. -/
  characters : List Character
  /-- The array `SillyTavern.getContext().groups`. -/
  groups : List Group
  /-- The value `SillyTavern.getContext().characterId`. -/
  characterId : JSVal
  /-- The value `SillyTavern.getContext().groupId`. -/
  groupId : JSVal
  /-- The value `extensionSettings[MODULE_NAME]`, `none` when falsy. -/
  extensionSettings : Option StoredSettings

/-- Milliseconds in a day, the divisor `864e5` of moment. -/
def msPerDay : Int := 86400000

/-- The value of `now.diff(d, 'days')` for a valid `d`: whole days, truncated
toward zero. -/
def diffDays (now : Int) (d : Moment) : Int :=
  Int.tdiv (now - d.wall) msPerDay

/-- The value of `characters.indexOf(character)`: the first position holding the
same object, or `-1`. -/
def indexOf (characters : List Character) (character : Character) : Int :=
  match characters.findIdx? (fun c => c.oid == character.oid) with
  | some i => (i : Int)
  | none => -1

/-! ## filterExpiredChats -/

/-- Lines 115-129 of the loop body: `true` when the iteration ends with
`continue` because the candidate is the currently open chat. -/
def skipsOpenChat (H : Host) (chatInfo : ChatInfo)
    (currentCharacterId currentChat currentGroupId : JSVal) : Bool :=
  if chatInfo.isGroup && currentGroupId.truthy
      && decide ((chatInfo.group.map Group.id).getD JSVal.undefined = currentGroupId) then
    let chatName := replaceJsonl chatInfo.chatData.file_name
    decide (JSVal.str chatName = currentChat)
  else if !chatInfo.isGroup && chatInfo.character.isSome
      && decide (currentCharacterId ≠ JSVal.null) then
    match chatInfo.character with
    | some character =>
      let charIndex := indexOf H.characters character
      if JSVal.num charIndex = currentCharacterId then
        let chatName := replaceJsonl chatInfo.chatData.file_name
        decide (JSVal.str chatName = currentChat)
      else false
    | none => false
  else false

/-- Lines 131-144 of the loop body: `true` when the candidate is pushed. -/
def pushesExpired (H : Host) (chatInfo : ChatInfo) (expirationDays : Int) : Bool :=
  if chatInfo.chatData.last_mes.truthy then
    match H.timestampToMoment chatInfo.chatData.last_mes with
    | .error _ => false
    | .ok lastMessageDate =>
      if !lastMessageDate.valid then false
      else
        let daysSinceLastMessage := diffDays H.now lastMessageDate
        decide (daysSinceLastMessage > expirationDays)
  else false

/-- The `for` loop of `filterExpiredChats`, with `expiredChats` as accumulator. -/
def filterExpiredChatsLoop (H : Host) (expirationDays : Int)
    (currentCharacterId currentChat currentGroupId : JSVal) :
    List ChatInfo → List ChatInfo → List ChatInfo
  | [], expiredChats => expiredChats
  | chatInfo :: rest, expiredChats =>
    if skipsOpenChat H chatInfo currentCharacterId currentChat currentGroupId then
      filterExpiredChatsLoop H expirationDays currentCharacterId currentChat currentGroupId
        rest expiredChats
    else if pushesExpired H chatInfo expirationDays then
      filterExpiredChatsLoop H expirationDays currentCharacterId currentChat currentGroupId
        rest (expiredChats ++ [chatInfo])
    else
      filterExpiredChatsLoop H expirationDays currentCharacterId currentChat currentGroupId
        rest expiredChats

/-- The function `filterExpiredChats(allChats, expirationDays, currentCharacterId,
currentChat, currentGroupId)`. -/
def filterExpiredChats (H : Host) (allChats : List ChatInfo) (expirationDays : Int)
    (currentCharacterId currentChat currentGroupId : JSVal) : List ChatInfo :=
  filterExpiredChatsLoop H expirationDays currentCharacterId currentChat currentGroupId
    allChats []

/-! ## filterExpiredBackups -/

/-- An element of `data.report.chatBackups`. -/
structure Backup where
  name : String
  hash : String
  mtime : JSVal
  deriving DecidableEq, Repr

/-- The regular expression `/_(\d{8}-\d{6})\.jsonl$/` tried at the start of `cs`:
an underscore, eight digits, a dash, six digits, `.jsonl` and the end of the
input.  The result is capture group 1. -/
def matchStampHere (cs : List Char) : Option (List Char) :=
  match cs with
  | [] => none
  | c :: rest =>
    let date := rest.take 8
    let time := (rest.drop 9).take 6
    if c = '_' ∧ date.length = 8 ∧ date.all Char.isDigit = true
        ∧ (rest.drop 8).head? = some '-'
        ∧ time.length = 6 ∧ time.all Char.isDigit = true
        ∧ rest.drop 15 = ".jsonl".data then
      some (rest.take 15)
    else none

/-- The leftmost match of the regular expression in `cs`. -/
def matchStampChars : List Char → Option (List Char)
  | [] => none
  | c :: rest =>
    match matchStampHere (c :: rest) with
    | some ts => some ts
    | none => matchStampChars rest

/-- The value of `backup.name.match(/_(\d{8}-\d{6})\.jsonl$/)`, reduced to
`match[1]`. -/
def matchStamp (name : String) : Option String :=
  (matchStampChars name.data).map String.mk

/-- Lines 207-230 of the loop body: the value of `backupDate` before the expiry
test; `none` is `null`. -/
def backupDateOf (H : Host) (backup : Backup) : Option Moment :=
  let fromName : Option Moment :=
    match matchStamp backup.name with
    | some timestampStr =>
      match H.momentFormat timestampStr with
      | .ok parsedDate => if parsedDate.valid then some parsedDate else none
      | .error _ => none
    | none => none
  match fromName with
  | some parsedDate => some parsedDate
  | none => if backup.mtime.truthy then some (H.momentOf backup.mtime) else none

/-- Lines 232-238 of the loop body: `true` when the backup is pushed. -/
def pushesExpiredBackup (H : Host) (backup : Backup) (expirationDays : Int) : Bool :=
  match backupDateOf H backup with
  | some backupDate =>
    if backupDate.valid then
      let daysSinceBackup := diffDays H.now backupDate
      decide (daysSinceBackup > expirationDays)
    else false
  | none => false

/-- The `for` loop of `filterExpiredBackups`, with `expiredBackups` as
accumulator. -/
def filterExpiredBackupsLoop (H : Host) (expirationDays : Int) :
    List Backup → List Backup → List Backup
  | [], expiredBackups => expiredBackups
  | backup :: rest, expiredBackups =>
    if pushesExpiredBackup H backup expirationDays then
      filterExpiredBackupsLoop H expirationDays rest (expiredBackups ++ [backup])
    else
      filterExpiredBackupsLoop H expirationDays rest expiredBackups

/-- The function `filterExpiredBackups(backups, expirationDays)`. -/
def filterExpiredBackups (H : Host) (backups : List Backup) (expirationDays : Int) :
    List Backup :=
  filterExpiredBackupsLoop H expirationDays backups []

/-! ## Settings -/

/-- The constant `DEFAULT_EXPIRATION_DAYS`. -/
def DEFAULT_EXPIRATION_DAYS : Int := 90

/-- The frozen object `defaultSettings`. -/
def defaultSettings : Settings :=
  { expirationDays := JSVal.num DEFAULT_EXPIRATION_DAYS
    expireBackups := JSVal.bool false
    autoExpire := JSVal.bool false }

/-- The function `getSettings()`: a missing settings object is replaced by the
defaults and every key the object does not own is filled in. -/
def getSettings (H : Host) : Settings :=
  match H.extensionSettings with
  | none => defaultSettings
  | some stored =>
    { expirationDays := stored.expirationDays.getD defaultSettings.expirationDays
      expireBackups := stored.expireBackups.getD defaultSettings.expireBackups
      autoExpire := stored.autoExpire.getD defaultSettings.autoExpire }

/-- The white space that `parseInt` skips (StrWhiteSpaceChar), by code point. -/
def isStrWhiteSpace (c : Char) : Bool :=
  let n := c.toNat
  n = 9 || n = 10 || n = 11 || n = 12 || n = 13 || n = 32 || n = 160 || n = 5760
    || (8192 ≤ n && n ≤ 8202) || n = 8232 || n = 8233 || n = 8239 || n = 8287
    || n = 12288 || n = 65279

/-- The value of a character as a digit of a radix up to 36. -/
def digitValue (c : Char) : Option Nat :=
  let n := c.toNat
  if 48 ≤ n ∧ n ≤ 57 then some (n - 48)
  else if 97 ≤ n ∧ n ≤ 122 then some (n - 97 + 10)
  else if 65 ≤ n ∧ n ≤ 90 then some (n - 65 + 10)
  else none

/-- The number denoted by the longest prefix of radix digits; `acc` is `none`
until a digit has been read. -/
def parseDigits (radix : Nat) : List Char → Option Nat → Option Nat
  | [], acc => acc
  | c :: cs, acc =>
    match digitValue c with
    | some d => if d < radix then parseDigits radix cs (some (acc.getD 0 * radix + d)) else acc
    | none => acc

/-- The function `parseInt` on the characters of a string, radix argument
absent; `none` is `NaN`. -/
def parseIntChars (cs : List Char) : Option Int :=
  let trimmed := cs.dropWhile isStrWhiteSpace
  let negative := trimmed.head? = some '-'
  let unsigned :=
    if trimmed.head? = some '-' ∨ trimmed.head? = some '+' then trimmed.drop 1 else trimmed
  let hex := (unsigned.take 2 = ['0', 'x'] ∨ unsigned.take 2 = ['0', 'X'])
  let radix := if hex then 16 else 10
  let digits := if hex then unsigned.drop 2 else unsigned
  match parseDigits radix digits none with
  | none => none
  | some n => some (if negative then -(n : Int) else (n : Int))

/-- The function `parseInt(v)`; `none` is `NaN`.  A number is converted to its
decimal numeral first (numbers below `1e21` in magnitude), so it parses to
itself. -/
def parseInt : JSVal → Option Int
  | .str s => parseIntChars s.data
  | .num n => some n
  | _ => none

/-- The expression `parseInt(v) || DEFAULT_EXPIRATION_DAYS`: `NaN` and `0` are
falsy. -/
def parseIntOrDefault (v : JSVal) : Int :=
  match parseInt v with
  | some n => if n ≠ 0 then n else DEFAULT_EXPIRATION_DAYS
  | none => DEFAULT_EXPIRATION_DAYS

/-! ## Collaborators -/

/-- A call to a collaborator: a request to the server, a popup or a toast. -/
inductive Call where
  /-- `POST /api/chats/search` with body `{query: '', avatar_url, group_id}`. -/
  | chatsSearch (avatar_url group_id : JSVal)
  /-- `POST /api/chats/delete` with body `{chatfile, avatar_url}`. -/
  | chatsDelete (chatfile : String) (avatar_url : JSVal)
  /-- `POST /api/chats/group/delete` with body `{id}`. -/
  | groupChatsDelete (id : String)
  /-- `POST /api/data-maid/report`. -/
  | dataMaidReport
  /-- `POST /api/data-maid/delete` with body `{hashes, token}`. -/
  | dataMaidDelete (hashes : List String) (token : JSVal)
  /-- `POST /api/data-maid/finalize` with body `{token}`. -/
  | dataMaidFinalize (token : JSVal)
  /-- `callGenericPopup(_, POPUP_TYPE.TEXT)`. -/
  | popupText
  /-- `callGenericPopup(_, POPUP_TYPE.CONFIRM, ...)`. -/
  | popupConfirm
  /-- `toastr.success`. -/
  | toastSuccess
  /-- `toastr.error`. -/
  | toastError
  deriving DecidableEq, Repr

/-- The outcome of an awaited `fetch`: a response with `ok` set (and its JSON
body), a response with `ok` unset, or a throw inside the `try` block (the
request is rejected, or the body cannot be read). -/
inductive Fetched (α : Type) where
  | ok (body : α)
  | notOk
  | threw
  deriving DecidableEq, Repr

/-- The parts of a `/api/data-maid/report` body that are read:
`data.report.chatBackups` (`none` when falsy) and `data.token`. -/
structure ReportBody where
  chatBackups : Option (List Backup)
  token : JSVal
  deriving DecidableEq, Repr

/-- The collaborators.  Each answer may depend on every call made so far: the
argument is the trace up to and including the call being answered. -/
structure World where
  searchResponse : List Call → Fetched (List ChatData)
  deleteResponse : List Call → Fetched Unit
  reportResponse : List Call → Fetched ReportBody
  backupsDeleteResponse : List Call → Fetched Unit
  finalizeResponse : List Call → Fetched Unit
  /-- The value the confirmation popup resolves to, as a truth value. -/
  confirm : List Call → Bool

/-! ## getAllChats -/

/-- The first loop of `getAllChats`, over the characters. -/
def getAllChatsCharacters (W : World) :
    List Character → List ChatInfo → List Call → List ChatInfo × List Call
  | [], allChats, trace => (allChats, trace)
  | character :: rest, allChats, trace =>
    if !character.avatar.truthy then getAllChatsCharacters W rest allChats trace
    else
      let trace1 := trace ++ [Call.chatsSearch character.avatar JSVal.null]
      match W.searchResponse trace1 with
      | .ok chatsData =>
        getAllChatsCharacters W rest
          (allChats ++ chatsData.map (fun chat =>
            { character := some character, group := none, chatData := chat, isGroup := false }))
          trace1
      | .notOk => getAllChatsCharacters W rest allChats trace1
      | .threw => getAllChatsCharacters W rest allChats trace1

/-- The second loop of `getAllChats`, over the groups. -/
def getAllChatsGroups (W : World) :
    List Group → List ChatInfo → List Call → List ChatInfo × List Call
  | [], allChats, trace => (allChats, trace)
  | group :: rest, allChats, trace =>
    if !group.id.truthy then getAllChatsGroups W rest allChats trace
    else
      let trace1 := trace ++ [Call.chatsSearch JSVal.null group.id]
      match W.searchResponse trace1 with
      | .ok chatsData =>
        getAllChatsGroups W rest
          (allChats ++ chatsData.map (fun chat =>
            { character := none, group := some group, chatData := chat, isGroup := true }))
          trace1
      | .notOk => getAllChatsGroups W rest allChats trace1
      | .threw => getAllChatsGroups W rest allChats trace1

/-- The function `getAllChats()`. -/
def getAllChats (H : Host) (W : World) (trace : List Call) : List ChatInfo × List Call :=
  let afterCharacters := getAllChatsCharacters W H.characters [] trace
  getAllChatsGroups W H.groups afterCharacters.1 afterCharacters.2

/-! ## Requests -/

/-- The function `deleteChat(chatInfo)`: the returned boolean and the trace.  A
character candidate without a character object throws while the request body is
built, which the `catch` turns into `false`. -/
def deleteChat (W : World) (chatInfo : ChatInfo) (trace : List Call) : Bool × List Call :=
  if chatInfo.isGroup then
    let trace1 := trace ++ [Call.groupChatsDelete chatInfo.chatData.file_name]
    match W.deleteResponse trace1 with
    | .ok _ => (true, trace1)
    | .notOk => (false, trace1)
    | .threw => (false, trace1)
  else
    match chatInfo.character with
    | none => (false, trace)
    | some character =>
      let trace1 := trace ++ [Call.chatsDelete chatInfo.chatData.file_name character.avatar]
      match W.deleteResponse trace1 with
      | .ok _ => (true, trace1)
      | .notOk => (false, trace1)
      | .threw => (false, trace1)

/-- The object returned by `getAllBackups`. -/
structure BackupData where
  backups : List Backup
  token : JSVal
  deriving DecidableEq, Repr

/-- The function `getAllBackups()`. -/
def getAllBackups (W : World) (trace : List Call) : BackupData × List Call :=
  let trace1 := trace ++ [Call.dataMaidReport]
  match W.reportResponse trace1 with
  | .ok data => ({ backups := data.chatBackups.getD [], token := data.token }, trace1)
  | .notOk => ({ backups := [], token := JSVal.null }, trace1)
  | .threw => ({ backups := [], token := JSVal.null }, trace1)

/-- The object returned by `deleteBackups`. -/
structure DeleteResult where
  success : Bool
  count : Nat
  deriving DecidableEq, Repr

/-- The function `deleteBackups(backupHashes, token)`. -/
def deleteBackups (W : World) (backupHashes : List String) (token : JSVal)
    (trace : List Call) : DeleteResult × List Call :=
  if backupHashes.length = 0 ∨ token.truthy = false then
    ({ success := true, count := 0 }, trace)
  else
    let trace1 := trace ++ [Call.dataMaidDelete backupHashes token]
    match W.backupsDeleteResponse trace1 with
    | .ok _ => ({ success := true, count := backupHashes.length }, trace1)
    | .notOk => ({ success := false, count := 0 }, trace1)
    | .threw => ({ success := false, count := 0 }, trace1)

/-- The function `finalizeDataMaid(token)`; the response is not read and a
rejection is caught. -/
def finalizeDataMaid (token : JSVal) (trace : List Call) : List Call :=
  if token.truthy = false then trace
  else trace ++ [Call.dataMaidFinalize token]

/-! ## getExpiredItems -/

/-- The array index that a property key denotes: a non-negative integer, or
its canonical decimal numeral. -/
def arrayIndex? : JSVal → Option Nat
  | .num n => if 0 ≤ n then some n.toNat else none
  | .str s =>
    let cs := s.data
    if cs ≠ [] ∧ cs.all Char.isDigit = true ∧ (cs.length = 1 ∨ cs.head? ≠ some '0') then
      some (cs.foldl (fun acc c => acc * 10 + (c.toNat - 48)) 0)
    else none
  | _ => none

/-- The expression `context.characters[currentCharacterId]?.chat`. -/
def currentChatOf (H : Host) : JSVal :=
  match (arrayIndex? H.characterId).bind (fun i => H.characters.get? i) with
  | some character => character.chat
  | none => JSVal.undefined

/-- The object returned by `getExpiredItems`. -/
structure ExpiredItems where
  expiredChats : List ChatInfo
  expiredBackups : List Backup
  backupToken : JSVal
  expirationDays : Int
  deriving DecidableEq, Repr

/-- The function `getExpiredItems()`. -/
def getExpiredItems (H : Host) (W : World) (trace : List Call) : ExpiredItems × List Call :=
  let settings := getSettings H
  let expirationDays := parseIntOrDefault settings.expirationDays
  let currentCharacterId := H.characterId
  let currentChat := currentChatOf H
  let currentGroupId := H.groupId
  let fetched := getAllChats H W trace
  let expiredChats :=
    filterExpiredChats H fetched.1 expirationDays currentCharacterId currentChat currentGroupId
  if settings.expireBackups.truthy then
    let backupData := getAllBackups W fetched.2
    ({ expiredChats := expiredChats
       expiredBackups := filterExpiredBackups H backupData.1.backups expirationDays
       backupToken := backupData.1.token
       expirationDays := expirationDays }, backupData.2)
  else
    ({ expiredChats := expiredChats
       expiredBackups := []
       backupToken := JSVal.null
       expirationDays := expirationDays }, fetched.2)

/-! ## The deletion passes -/

/-- The expression `chatInfo.isGroup ? chatInfo.group.name : chatInfo.character.name`;
reading `name` of a missing owner throws. -/
def ownerName (chatInfo : ChatInfo) : Except String String :=
  if chatInfo.isGroup then
    match chatInfo.group with
    | some group => .ok group.name
    | none => .error "TypeError"
  else
    match chatInfo.character with
    | some character => .ok character.name
    | none => .error "TypeError"

/-- The evaluation of the `lastMes` text of the log line,
`last_mes ? timestampToMoment(last_mes).format('MMM D, YYYY') : 'Unknown'`:
the text itself is not kept, a throw of the host function is. -/
def lastMesText (H : Host) (chatInfo : ChatInfo) : Except String Unit :=
  if chatInfo.chatData.last_mes.truthy then
    match H.timestampToMoment chatInfo.chatData.last_mes with
    | .ok _ => .ok ()
    | .error e => .error e
  else .ok ()

/-- The counters and the list that the chat loop of `expireChats` updates. -/
structure ChatTally where
  chatSuccessCount : Nat
  chatFailCount : Nat
  failedChats : List String
  deriving DecidableEq, Repr

/-- The loop `for (const chatInfo of expiredChats)` of `expireChats`
(lines 534-549).  An exception leaves the loop with the trace so far. -/
def expireChatsLoop (H : Host) (W : World) :
    List ChatInfo → ChatTally → List Call → Except String ChatTally × List Call
  | [], tally, trace => (.ok tally, trace)
  | chatInfo :: rest, tally, trace =>
    match ownerName chatInfo with
    | .error e => (.error e, trace)
    | .ok name =>
      match lastMesText H chatInfo with
      | .error e => (.error e, trace)
      | .ok _ =>
        let deleted := deleteChat W chatInfo trace
        if deleted.1 then
          expireChatsLoop H W rest
            { tally with chatSuccessCount := tally.chatSuccessCount + 1 } deleted.2
        else
          expireChatsLoop H W rest
            { tally with
              chatFailCount := tally.chatFailCount + 1
              failedChats :=
                tally.failedChats ++ [name ++ ": " ++ chatInfo.chatData.file_name] }
            deleted.2

/-- The loop `for (const chatInfo of expiredChats)` of `autoExpireChats`
(lines 340-354); the pair is `(chatSuccessCount, chatFailCount)`. -/
def autoExpireChatsLoop (H : Host) (W : World) :
    List ChatInfo → Nat × Nat → List Call → Except String (Nat × Nat) × List Call
  | [], counts, trace => (.ok counts, trace)
  | chatInfo :: rest, counts, trace =>
    match ownerName chatInfo with
    | .error e => (.error e, trace)
    | .ok _ =>
      match lastMesText H chatInfo with
      | .error e => (.error e, trace)
      | .ok _ =>
        let deleted := deleteChat W chatInfo trace
        if deleted.1 then autoExpireChatsLoop H W rest (counts.1 + 1, counts.2) deleted.2
        else autoExpireChatsLoop H W rest (counts.1, counts.2 + 1) deleted.2

/-- The backup deletion step, lines 357-374 of `autoExpireChats` and the same
text at lines 552-570 of `expireChats`; the pair is
`(backupSuccessCount, backupFailCount)`. -/
def backupDeletionStep (W : World) (expiredBackups : List Backup) (backupToken : JSVal)
    (trace : List Call) : (Nat × Nat) × List Call :=
  if expiredBackups.length > 0 ∧ backupToken.truthy = true then
    let backupHashes := expiredBackups.map Backup.hash
    let deleteResult := deleteBackups W backupHashes backupToken trace
    if deleteResult.1.success then ((deleteResult.1.count, 0), deleteResult.2)
    else ((0, expiredBackups.length), deleteResult.2)
  else ((0, 0), trace)

/-- The statement `if (backupToken) { await finalizeDataMaid(backupToken); }`. -/
def finalizeIfToken (backupToken : JSVal) (trace : List Call) : List Call :=
  if backupToken.truthy then finalizeDataMaid backupToken trace else trace

/-- The counts that the result popup, the toast and the log line report. -/
structure Summary where
  chatSuccessCount : Nat
  chatFailCount : Nat
  backupSuccessCount : Nat
  backupFailCount : Nat
  failedChats : List String
  deriving DecidableEq, Repr

/-- The function `expireChats(expiredChats, expiredBackups, backupToken)`.  The
text of the result popup is not modelled; the values it prints are returned. -/
def expireChats (H : Host) (W : World) (expiredChats : List ChatInfo)
    (expiredBackups : List Backup) (backupToken : JSVal) (trace : List Call) :
    Except String Summary × List Call :=
  let chats := expireChatsLoop H W expiredChats
    { chatSuccessCount := 0, chatFailCount := 0, failedChats := [] } trace
  match chats.1 with
  | .error e => (.error e, chats.2)
  | .ok tally =>
    let backups := backupDeletionStep W expiredBackups backupToken chats.2
    let finalized := finalizeIfToken backupToken backups.2
    (.ok { chatSuccessCount := tally.chatSuccessCount
           chatFailCount := tally.chatFailCount
           backupSuccessCount := backups.1.1
           backupFailCount := backups.1.2
           failedChats := tally.failedChats },
     finalized ++ [Call.popupText])

/-- The outcome of a pass: the calls it made and, when it reached its report,
the counts reported. -/
structure PassResult where
  trace : List Call
  summary : Option Summary
  deriving DecidableEq, Repr

/-- The function `autoExpireChats()`.  The text of the toast is not modelled;
the counts it prints are returned. -/
def autoExpireChats (H : Host) (W : World) : PassResult :=
  let items := getExpiredItems H W []
  if items.1.expiredChats.length = 0 ∧ items.1.expiredBackups.length = 0 then
    { trace := finalizeIfToken items.1.backupToken items.2, summary := none }
  else
    let chats := autoExpireChatsLoop H W items.1.expiredChats (0, 0) items.2
    match chats.1 with
    | .error _ => { trace := chats.2 ++ [Call.toastError], summary := none }
    | .ok counts =>
      let backups := backupDeletionStep W items.1.expiredBackups items.1.backupToken chats.2
      let finalized := finalizeIfToken items.1.backupToken backups.2
      { trace := finalized ++ [Call.toastSuccess]
        summary := some
          { chatSuccessCount := counts.1
            chatFailCount := counts.2
            backupSuccessCount := backups.1.1
            backupFailCount := backups.1.2
            failedChats := [] } }

/-- The owner names read by the loop at lines 440-446 of `previewExpiredChats`,
in the order of `expiredChats`. -/
def previewNames : List ChatInfo → Except String (List String)
  | [] => .ok []
  | chat :: rest =>
    match ownerName chat with
    | .error e => .error e
    | .ok name =>
      match previewNames rest with
      | .error e => .error e
      | .ok names => .ok (name :: names)

/-- The function `previewExpiredChats()`.  The text of the preview is not
modelled; building it reads the owner name of every expired chat. -/
def previewExpiredChats (H : Host) (W : World) : PassResult :=
  let items := getExpiredItems H W []
  if items.1.expiredChats.length = 0 ∧ items.1.expiredBackups.length = 0 then
    { trace := finalizeIfToken items.1.backupToken (items.2 ++ [Call.popupText])
      summary := none }
  else
    match previewNames items.1.expiredChats with
    | .error _ => { trace := items.2 ++ [Call.popupText], summary := none }
    | .ok _ =>
      let asked := items.2 ++ [Call.popupConfirm]
      if W.confirm asked then
        let run := expireChats H W items.1.expiredChats items.1.expiredBackups
          items.1.backupToken asked
        match run.1 with
        | .error _ => { trace := run.2 ++ [Call.popupText], summary := none }
        | .ok summary => { trace := run.2, summary := some summary }
      else
        { trace := finalizeIfToken items.1.backupToken asked, summary := none }

/-! ## Definitions used by the statements -/

/-- The candidate test of `filterExpiredChats`: not skipped as the open chat,
and pushed as expired. -/
def keepsChat (H : Host) (expirationDays : Int)
    (currentCharacterId currentChat currentGroupId : JSVal) (chatInfo : ChatInfo) : Bool :=
  !skipsOpenChat H chatInfo currentCharacterId currentChat currentGroupId
    && pushesExpired H chatInfo expirationDays

/-- A file id with its storage extension stripped, in the words of the
specification: a final `.jsonl` is removed and nothing else. -/
def stripExtension (file_name : String) : String :=
  if ".jsonl".data.isSuffixOf file_name.data then
    ⟨file_name.data.take (file_name.data.length - 6)⟩
  else file_name

/-- The active conversation in the words of the specification (section 4.2):
for a group candidate the owner id equals the active group id, for a character
candidate the owner's position among the loaded characters equals the active
index, and in both cases the stripped file id equals the active file id. -/
def isActiveConversation (H : Host) (chatInfo : ChatInfo)
    (currentCharacterId currentChat currentGroupId : JSVal) : Bool :=
  if chatInfo.isGroup then
    match chatInfo.group with
    | some group =>
      decide (group.id = currentGroupId)
        && decide (JSVal.str (stripExtension chatInfo.chatData.file_name) = currentChat)
    | none => false
  else
    match chatInfo.character with
    | some character =>
      decide (JSVal.num (indexOf H.characters character) = currentCharacterId)
        && decide (JSVal.str (stripExtension chatInfo.chatData.file_name) = currentChat)
    | none => false

/-- The clock of the examples: 2025-05-01 12:00:00, in wall-clock
milliseconds. -/
def exampleNow : Int := 1746100800000

/-- The instant `n` days before `exampleNow`. -/
def daysAgo (n : Int) : Int := exampleNow - n * msPerDay

/-- A host for the examples: the clock reads `exampleNow`, a numeric timestamp
is a valid instant of that many milliseconds and every other timestamp is
invalid; of the file-name stamps only `20250101-120000` is given a reading,
that of 2025-01-01 12:00:00, and the others are invalid. -/
def exampleHost (characters : List Character) (groups : List Group)
    (characterId groupId : JSVal) : Host :=
  { now := exampleNow
    timestampToMoment := fun v =>
      match v with
      | .num n => .ok { valid := true, wall := n }
      | _ => .ok { valid := false, wall := 0 }
    momentFormat := fun timestampStr =>
      if timestampStr = "20250101-120000" then .ok { valid := true, wall := 1735732800000 }
      else .ok { valid := false, wall := 0 }
    momentOf := fun v =>
      match v with
      | .num n => { valid := true, wall := n }
      | _ => { valid := false, wall := 0 }
    characters := characters
    groups := groups
    characterId := characterId
    groupId := groupId
    extensionSettings := none }

/-- A loaded character whose open chat is named `story.jsonl.bak`. -/
def seraphina : Character :=
  { oid := 1, name := "Seraphina", avatar := JSVal.str "seraphina.png"
    chat := JSVal.str "story.jsonl.bak" }

/-- The session in which `seraphina` is the selected character. -/
def seraphinaHost : Host := exampleHost [seraphina] [] (JSVal.num 0) JSVal.undefined

/-- The stored file of the chat `story.jsonl.bak`, last written 100 days ago. -/
def openChatOfSeraphina : ChatInfo :=
  { character := some seraphina, group := none
    chatData := { file_name := "story.jsonl.bak.jsonl", last_mes := JSVal.num (daysAgo 100) }
    isGroup := false }

/-- A chat of `seraphina` that is not open, last written `age` days ago. -/
def otherChatOfSeraphina (age : Int) : ChatInfo :=
  { character := some seraphina, group := none
    chatData := { file_name := "older.jsonl", last_mes := JSVal.num (daysAgo age) }
    isGroup := false }

/-- A chat of `seraphina` whose timestamp is missing. -/
def undatedChatOfSeraphina : ChatInfo :=
  { character := some seraphina, group := none
    chatData := { file_name := "undated.jsonl", last_mes := JSVal.undefined }
    isGroup := false }

/-- A backup taken on 2025-01-01 12:00:00 whose file was touched `age` days
ago. -/
def stampedBackup (age : Int) : Backup :=
  { name := "chat_seraphina_20250101-120000.jsonl", hash := "9f2c"
    mtime := JSVal.num (daysAgo age) }

/-- A backup whose name carries no stamp. -/
def unstampedBackup (mtime : JSVal) : Backup :=
  { name := "chat_seraphina_latest.jsonl", hash := "47aa", mtime := mtime }

/-- The name ends in `_{8 digits}-{6 digits}.jsonl`, with `date` the eight
digits and `time` the six. -/
def EndsInStamp (name : String) (date time : List Char) : Prop :=
  ∃ pre : List Char,
    name.data = pre ++ '_' :: (date ++ '-' :: (time ++ ".jsonl".data))
    ∧ date.length = 8 ∧ date.all Char.isDigit = true
    ∧ time.length = 6 ∧ time.all Char.isDigit = true

/-- The candidate has the owner object that its `isGroup` flag announces, as
every candidate built by `getAllChats` has. -/
def hasOwner (chatInfo : ChatInfo) : Bool :=
  if chatInfo.isGroup then chatInfo.group.isSome else chatInfo.character.isSome

/-- The owner name of a candidate, empty when the owner object is missing. -/
def ownerNameOf (chatInfo : ChatInfo) : String :=
  if chatInfo.isGroup then (chatInfo.group.map Group.name).getD ""
  else (chatInfo.character.map Character.name).getD ""

/-- The entry `<owner name>: <file_name>` of the failed-item list. -/
def failedLabel (chatInfo : ChatInfo) : String :=
  ownerNameOf chatInfo ++ ": " ++ chatInfo.chatData.file_name

/-- The delete request of a candidate: the group endpoint with the file name,
or the character endpoint with the file name and the avatar. -/
def deleteCallOf (chatInfo : ChatInfo) : Option Call :=
  if chatInfo.isGroup then some (Call.groupChatsDelete chatInfo.chatData.file_name)
  else chatInfo.character.map
    (fun character => Call.chatsDelete chatInfo.chatData.file_name character.avatar)

/-- A fetch that resolved to a response with `ok` set. -/
def Fetched.isOk {α : Type} : Fetched α → Bool
  | .ok _ => true
  | .notOk => false
  | .threw => false

/-- The answers of the world to the delete requests of the candidates, issued
in list order after the trace `trace`. -/
def deleteAnswers (W : World) : List ChatInfo → List Call → List (Fetched Unit)
  | [], _ => []
  | chatInfo :: rest, trace =>
    let trace1 := trace ++ (deleteCallOf chatInfo).toList
    W.deleteResponse trace1 :: deleteAnswers W rest trace1

/-- A query: a chat search or the maintenance report. -/
def Call.isQuery : Call → Bool
  | .chatsSearch _ _ => true
  | .dataMaidReport => true
  | _ => false

/-- A finalize request. -/
def Call.isFinalize : Call → Bool
  | .dataMaidFinalize _ => true
  | _ => false

/-- A deletion request, for a chat or for backups. -/
def Call.isDeletion : Call → Bool
  | .chatsDelete _ _ => true
  | .groupChatsDelete _ => true
  | .dataMaidDelete _ _ => true
  | _ => false

/-- The batched backup delete request, present when there are expired backups
and a token. -/
def backupRequests (expiredBackups : List Backup) (backupToken : JSVal) : List Call :=
  if expiredBackups.length > 0 ∧ backupToken.truthy = true then
    [Call.dataMaidDelete (expiredBackups.map Backup.hash) backupToken]
  else []

/-- The finalize request, present when there is a token. -/
def finalizeRequests (backupToken : JSVal) : List Call :=
  if backupToken.truthy = true then [Call.dataMaidFinalize backupToken] else []

/-- The requests of a deletion phase, in order: one delete per expired chat,
the batched backup delete, the finalize. -/
def deletionRequests (expiredChats : List ChatInfo) (expiredBackups : List Backup)
    (backupToken : JSVal) : List Call :=
  expiredChats.filterMap deleteCallOf ++ backupRequests expiredBackups backupToken
    ++ finalizeRequests backupToken

/-- The trace holds exactly one finalize request, it carries `token`, and no
deletion request follows it. -/
def FinalizedOnce (token : JSVal) (trace : List Call) : Prop :=
  ∃ before after : List Call,
    trace = before ++ Call.dataMaidFinalize token :: after
    ∧ (∀ call ∈ before, call.isFinalize = false)
    ∧ (∀ call ∈ after, call.isFinalize = false ∧ call.isDeletion = false)

/-- The trace holds no finalize request. -/
def NeverFinalized (trace : List Call) : Prop :=
  ∀ call ∈ trace, call.isFinalize = false

/-- The session of `seraphinaHost` with backups enabled and threshold 90. -/
def backupsHost : Host :=
  { seraphinaHost with
    extensionSettings := some
      { expirationDays := some (JSVal.num 90)
        expireBackups := some (JSVal.bool true)
        autoExpire := none } }

/-- A server for the examples: the search for `seraphina` finds one chat that
is not open and is 91 days old, the report lists `stampedBackup 1` under the
token `tok-1`, every delete request is answered as `deletes` says and the
confirmation popup as `confirm` says. -/
def exampleWorld (deletes : Fetched Unit) (confirm : Bool) : World :=
  { searchResponse := fun trace =>
      match trace.getLast? with
      | some (Call.chatsSearch (JSVal.str "seraphina.png") _) =>
        .ok [(otherChatOfSeraphina 91).chatData]
      | _ => .ok []
    deleteResponse := fun _ => deletes
    reportResponse := fun _ =>
      .ok { chatBackups := some [stampedBackup 1], token := JSVal.str "tok-1" }
    backupsDeleteResponse := fun _ => deletes
    finalizeResponse := fun _ => .ok ()
    confirm := fun _ => confirm }

/-- A loaded group. -/
def party : Group := { id := JSVal.str "1700000000000", name := "Party" }

/-- The session in which the group `party` is open: no character is
selected. -/
def partyHost : Host :=
  exampleHost [seraphina] [party] JSVal.undefined (JSVal.str "1700000000000")

/-- The chat that is open in the group `party`, stored as `evening.jsonl` and
100 days old. -/
def openChatOfParty : ChatInfo :=
  { character := none, group := some party
    chatData := { file_name := "evening.jsonl", last_mes := JSVal.num (daysAgo 100) }
    isGroup := true }

/-- A server whose search for the group `party` finds its open chat and whose
search for a character finds nothing. -/
def partyWorld : World :=
  { searchResponse := fun trace =>
      match trace.getLast? with
      | some (Call.chatsSearch _ (JSVal.str "1700000000000")) =>
        .ok [openChatOfParty.chatData]
      | _ => .ok []
    deleteResponse := fun _ => .ok ()
    reportResponse := fun _ => .notOk
    backupsDeleteResponse := fun _ => .notOk
    finalizeResponse := fun _ => .ok ()
    confirm := fun _ => false }

/-- A world that answers the delete request issued at trace length
`start + i + 1` with the entry `i` of `answers`. -/
def worldAnswering (W : World) (start : Nat) (answers : List (Fetched Unit)) : World :=
  { W with deleteResponse := fun trace => answers.getD (trace.length - (start + 1)) Fetched.threw }

/-- The stored object after every key of a settings object has been written. -/
def storeSettings (settings : Settings) : StoredSettings :=
  { expirationDays := some settings.expirationDays
    expireBackups := some settings.expireBackups
    autoExpire := some settings.autoExpire }

/-- The function `onExpirationDaysInput()`: `fieldValue` is
`$('#expire_chats_days').val()`, the result is the host state after the
assignment `settings.expirationDays = Math.max(1, value)` on the object that
`getSettings()` returns.  The call `saveSettingsDebounced()` persists that
object and is not modelled. -/
def onExpirationDaysInput (fieldValue : JSVal) (H : Host) : Host :=
  let value := parseIntOrDefault fieldValue
  let settings := getSettings H
  { H with
    extensionSettings :=
      some (storeSettings { settings with expirationDays := JSVal.num (max 1 value) }) }

/-- The session of `seraphinaHost` with the stored threshold `expirationDays`. -/
def thresholdHost (expirationDays : JSVal) : Host :=
  { seraphinaHost with
    extensionSettings := some
      { expirationDays := some expirationDays
        expireBackups := none
        autoExpire := none } }

/-- A chat of `seraphina` that is not open and was written at the instant of
the clock. -/
def freshChatOfSeraphina : ChatInfo := otherChatOfSeraphina 0

/-- A server whose search for `seraphina` finds `freshChatOfSeraphina`. -/
def freshWorld : World :=
  { searchResponse := fun trace =>
      match trace.getLast? with
      | some (Call.chatsSearch (JSVal.str "seraphina.png") _) =>
        .ok [freshChatOfSeraphina.chatData]
      | _ => .ok []
    deleteResponse := fun _ => .ok ()
    reportResponse := fun _ => .notOk
    backupsDeleteResponse := fun _ => .notOk
    finalizeResponse := fun _ => .ok ()
    confirm := fun _ => false }

/-! ## The per-owner breakdown of previewExpiredChats -/

/-- A value of the counter object `chatsByName`: `NaN` or a natural number. -/
inductive JSCount where
  | nan
  | nat (n : Nat)
  deriving DecidableEq, Repr

/-- The own properties of the object `chatsByName`, in creation order. -/
abbrev CountObject := List (String × JSCount)

/-- The property names that an object literal `{}` inherits from
`Object.prototype`. -/
def objectPrototypeKeys : List String :=
  ["constructor", "__defineGetter__", "__defineSetter__", "hasOwnProperty",
   "__lookupGetter__", "__lookupSetter__", "isPrototypeOf", "propertyIsEnumerable",
   "toString", "valueOf", "__proto__", "toLocaleString"]

/-- What reading `chatsByName[name]` finds: an own counter, a function or
object inherited from `Object.prototype`, or `undefined`. -/
inductive PropertyValue where
  | own (c : JSCount)
  | inherited
  | undefined
  deriving DecidableEq, Repr

/-- The own counter stored under `name`. -/
def ownValue : CountObject → String → Option JSCount
  | [], _ => none
  | (k, c) :: rest, name => if k = name then some c else ownValue rest name

/-- The expression `chatsByName[name]`.  The key `__proto__` is an accessor of
`Object.prototype` and reads the prototype object. -/
def getProperty (obj : CountObject) (name : String) : PropertyValue :=
  if name = "__proto__" then PropertyValue.inherited
  else
    match ownValue obj name with
    | some c => PropertyValue.own c
    | none => if name ∈ objectPrototypeKeys then PropertyValue.inherited
      else PropertyValue.undefined

/-- The assignment `chatsByName[name] = c` of a number: an own property is
overwritten in place, a new one is created last; the setter of `__proto__`
ignores a number. -/
def setProperty (obj : CountObject) (name : String) (c : JSCount) : CountObject :=
  if name = "__proto__" then obj
  else if (ownValue obj name).isSome then
    obj.map (fun p => if p.1 = name then (p.1, c) else p)
  else obj ++ [(name, c)]

/-- Truthiness of a property value: `undefined`, `NaN` and `0` are falsy, a
function or object is truthy. -/
def PropertyValue.truthy : PropertyValue → Bool
  | .own .nan => false
  | .own (.nat n) => decide (n ≠ 0)
  | .inherited => true
  | .undefined => false

/-- The value of `v + 1` after `v` is converted to a number: a function, an
object and `undefined` convert to `NaN`. -/
def PropertyValue.increment : PropertyValue → JSCount
  | .own (.nat n) => JSCount.nat (n + 1)
  | _ => JSCount.nan

/-- The body of the loop at lines 440-446 for one owner name:
`if (!chatsByName[name]) chatsByName[name] = 0; chatsByName[name]++`. -/
def countName (chatsByName : CountObject) (name : String) : CountObject :=
  let initialised :=
    if (getProperty chatsByName name).truthy then chatsByName
    else setProperty chatsByName name (JSCount.nat 0)
  setProperty initialised name (getProperty initialised name).increment

/-- The array index that a property key denotes, below `2^32 - 1`. -/
def arrayIndexKey? (name : String) : Option Nat :=
  match arrayIndex? (JSVal.str name) with
  | some n => if n < 4294967295 then some n else none
  | none => none

/-- The value of `Object.entries(chatsByName)`: the array-index keys in
ascending numeric order, then the other keys in creation order. -/
def objectEntries (obj : CountObject) : List (String × JSCount) :=
  (obj.filter (fun p => (arrayIndexKey? p.1).isSome)).insertionSort
      (fun a b => (arrayIndexKey? a.1).getD 0 ≤ (arrayIndexKey? b.1).getD 0)
    ++ obj.filter (fun p => !(arrayIndexKey? p.1).isSome)

/-- The comparator of lines 450-453 as `sort` reads it: `b[1] - a[1]` when the
counts differ, `a[0].localeCompare(b[0])` otherwise.  With a `NaN` count the
counts differ, the difference is `NaN`, and `sort` reads `NaN` as `+0`.
The function `localeCompare` depends on the locale and is a parameter. -/
def compareEntries (localeCompare : String → String → Int)
    (a b : String × JSCount) : Int :=
  match a.2, b.2 with
  | .nat x, .nat y => if y ≠ x then (y : Int) - (x : Int) else localeCompare a.1 b.1
  | _, _ => 0

/-- The value of `entries.sort(comparator)`.  `Array.prototype.sort` is stable,
and for a consistent comparator its result is the stable sorted arrangement,
which insertion from the right computes; for an inconsistent comparator the
language leaves the order to the implementation. -/
def sortEntries (localeCompare : String → String → Int)
    (entries : List (String × JSCount)) : List (String × JSCount) :=
  entries.insertionSort (fun a b => compareEntries localeCompare a b ≤ 0)

/-- The array `sortedNames` of `previewExpiredChats` (lines 438-453): the
entries the preview lists, in order; an owner name that cannot be read
throws. -/
def sortedNames (localeCompare : String → String → Int)
    (expiredChats : List ChatInfo) : Except String (List (String × JSCount)) :=
  match previewNames expiredChats with
  | .error e => .error e
  | .ok names => .ok (sortEntries localeCompare (objectEntries (names.foldl countName [])))

/-- A comparison of strings by code points, standing in for `localeCompare` in
the examples. -/
def compareCodePoints (a b : String) : Int :=
  if a.data < b.data then -1 else if a = b then 0 else 1

/-- An expired chat of a character named `name`, stored as `file_name`. -/
def expiredChatOf (name file_name : String) : ChatInfo :=
  { character := some
      { oid := 7, name := name, avatar := JSVal.str "card.png", chat := JSVal.str "current" }
    group := none
    chatData := { file_name := file_name, last_mes := JSVal.num (daysAgo 100) }
    isGroup := false }

/-- The count that an entry holds, `NaN` read as 0. -/
def JSCount.toNat : JSCount → Nat
  | .nan => 0
  | .nat n => n

/-- The count stored under a key, 0 when there is none. -/
def storedCount : Option JSCount → Nat
  | some c => c.toNat
  | none => 0

/-- The invariant of `chatsByName` while the owner names are not property names
of `Object.prototype`: the keys are distinct and every counter is a positive
number. -/
def PlainCounts (obj : CountObject) : Prop :=
  (obj.map Prod.fst).Nodup ∧ ∀ p ∈ obj, ∃ n : Nat, p.2 = JSCount.nat n ∧ 0 < n

/-- A loaded character whose open chat is named `ab.jsonl`. -/
def mira : Character :=
  { oid := 2, name := "Mira", avatar := JSVal.str "mira.png", chat := JSVal.str "ab.jsonl" }

/-- The session in which `mira` is the selected character. -/
def miraHost : Host := exampleHost [mira] [] (JSVal.num 0) JSVal.undefined

/-- A chat of `mira` named `a.jsonlb`, stored as `a.jsonlb.jsonl` and last
written `age` days ago; it is not the open chat `ab.jsonl`. -/
def shadowedChatOfMira (age : Int) : ChatInfo :=
  { character := some mira, group := none
    chatData := { file_name := "a.jsonlb.jsonl", last_mes := JSVal.num (daysAgo age) }
    isGroup := false }

/-- A chat of `mira` named `plain`, last written `age` days ago. -/
def plainChatOfMira (age : Int) : ChatInfo :=
  { character := some mira, group := none
    chatData := { file_name := "plain.jsonl", last_mes := JSVal.num (daysAgo age) }
    isGroup := false }

/-- The filter in the words of the specification (section 4.4): the candidates
that are not the active conversation and are expired, in input order. -/
def filterConversations (H : Host) (allChats : List ChatInfo) (expirationDays : Int)
    (currentCharacterId currentChat currentGroupId : JSVal) : List ChatInfo :=
  allChats.filter (fun c =>
    !isActiveConversation H c currentCharacterId currentChat currentGroupId
      && pushesExpired H c expirationDays)

/-! # Theorems -/

/-! ## The loop of filterExpiredChats is a filter -/

theorem filterExpiredChatsLoop_eq (H : Host) (N : Int) (cid chat gid : JSVal)
    (xs acc : List ChatInfo) :
    filterExpiredChatsLoop H N cid chat gid xs acc
      = acc ++ xs.filter (keepsChat H N cid chat gid) := by
  induction xs generalizing acc with
  | nil => simp [filterExpiredChatsLoop]
  | cons x xs ih =>
    unfold filterExpiredChatsLoop
    by_cases h1 : skipsOpenChat H x cid chat gid = true
    · simp [h1, ih, keepsChat]
    · by_cases h2 : pushesExpired H x N = true
      · simp [h1, h2, ih, keepsChat]
      · simp [h1, h2, ih, keepsChat]

theorem filterExpiredChats_eq_filter (H : Host) (N : Int) (cid chat gid : JSVal)
    (xs : List ChatInfo) :
    filterExpiredChats H xs N cid chat gid = xs.filter (keepsChat H N cid chat gid) := by
  simp [filterExpiredChats, filterExpiredChatsLoop_eq]

theorem mem_filterExpiredChats (H : Host) (N : Int) (cid chat gid : JSVal)
    (xs : List ChatInfo) (c : ChatInfo) :
    c ∈ filterExpiredChats H xs N cid chat gid
      ↔ c ∈ xs ∧ skipsOpenChat H c cid chat gid = false ∧ pushesExpired H c N = true := by
  simp [filterExpiredChats_eq_filter, keepsChat]

theorem pushesExpired_iff (H : Host) (N : Int) (c : ChatInfo) :
    pushesExpired H c N = true
      ↔ c.chatData.last_mes.truthy = true
        ∧ ∃ m, H.timestampToMoment c.chatData.last_mes = .ok m ∧ m.valid = true
          ∧ diffDays H.now m > N := by
  unfold pushesExpired
  by_cases ht : c.chatData.last_mes.truthy = true
  · cases hp : H.timestampToMoment c.chatData.last_mes with
    | error e => simp [ht]
    | ok m =>
      by_cases hv : m.valid = true
      · simp [ht, hv]
      · simp [ht, hv]
  · simp [ht]

theorem pushesExpired_of_parse (H : Host) (N : Int) (c : ChatInfo) (m : Moment)
    (ht : c.chatData.last_mes.truthy = true)
    (hp : H.timestampToMoment c.chatData.last_mes = .ok m) (hv : m.valid = true) :
    pushesExpired H c N = true ↔ diffDays H.now m > N := by
  rw [pushesExpired_iff]
  constructor
  · rintro ⟨_, m', hm', _, hd⟩
    rw [hp] at hm'
    cases hm'
    exact hd
  · intro hd
    exact ⟨ht, m, hp, hv, hd⟩

theorem diffDays_of_elapsed (now : Int) (m : Moment) (k r : Int) (hk : 0 ≤ k)
    (hr0 : 0 ≤ r) (hr : r < msPerDay) (h : now - m.wall = k * msPerDay + r) :
    diffDays now m = k := by
  unfold diffDays
  rw [h]
  have hpos : (0 : Int) < msPerDay := by decide
  have hnn : 0 ≤ k * msPerDay + r := by positivity
  rw [Int.tdiv_eq_ediv hnn (le_of_lt hpos)]
  rw [Int.add_comm, Int.add_mul_ediv_right _ _ (ne_of_gt hpos)]
  rw [Int.ediv_eq_zero_of_lt hr0 hr]
  simp

/-- The exclusion test of the loop agrees with the active conversation of the
specification on a candidate whose file name loses the same characters to
`replace('.jsonl', '')` as to stripping the final extension, provided a group
candidate has a group with a truthy id (as `getAllChats` ensures). -/
theorem skipsOpenChat_eq_isActiveConversation (H : Host) (c : ChatInfo)
    (cid chat gid : JSVal)
    (hname : replaceJsonl c.chatData.file_name = stripExtension c.chatData.file_name)
    (hgroup : c.isGroup = true → ∃ g, c.group = some g ∧ g.id.truthy = true) :
    skipsOpenChat H c cid chat gid = isActiveConversation H c cid chat gid := by
  unfold skipsOpenChat isActiveConversation
  cases hg : c.isGroup
  · cases hc : c.character with
    | none => simp
    | some ch =>
      by_cases hidx : JSVal.num (indexOf H.characters ch) = cid
      · have hnn : cid ≠ JSVal.null := by
          rw [← hidx]
          exact fun h => by cases h
        simp [hidx, hnn, hname]
      · simp [hidx]
  · obtain ⟨g, hgs, hgt⟩ := hgroup hg
    by_cases hid : g.id = gid
    · have : gid.truthy = true := by rw [← hid]; exact hgt
      simp [hgs, hid, this, hname]
    · simp [hgs, hid]

/-! ## The loop of filterExpiredBackups and the file-name pattern -/

theorem filterExpiredBackupsLoop_eq (H : Host) (N : Int) (xs acc : List Backup) :
    filterExpiredBackupsLoop H N xs acc
      = acc ++ xs.filter (fun b => pushesExpiredBackup H b N) := by
  induction xs generalizing acc with
  | nil => simp [filterExpiredBackupsLoop]
  | cons x xs ih =>
    unfold filterExpiredBackupsLoop
    by_cases h : pushesExpiredBackup H x N = true
    · simp [h, ih]
    · simp [h, ih]

theorem filterExpiredBackups_eq_filter (H : Host) (N : Int) (xs : List Backup) :
    filterExpiredBackups H xs N = xs.filter (fun b => pushesExpiredBackup H b N) := by
  simp [filterExpiredBackups, filterExpiredBackupsLoop_eq]

theorem mem_filterExpiredBackups (H : Host) (N : Int) (xs : List Backup) (b : Backup) :
    b ∈ filterExpiredBackups H xs N ↔ b ∈ xs ∧ pushesExpiredBackup H b N = true := by
  simp [filterExpiredBackups_eq_filter]

theorem matchStampHere_length (cs ts : List Char) (h : matchStampHere cs = some ts) :
    cs.length = 22 := by
  cases cs with
  | nil => simp [matchStampHere] at h
  | cons c rest =>
    simp only [matchStampHere] at h
    split at h
    · rename_i hc
      have h6 := congrArg List.length hc.2.2.2.2.2.2
      simp at h6
      have : (".jsonl".data).length = 6 := by decide
      simp only [List.length_cons]
      omega
    · cases h

theorem matchStampHere_stamp (date time : List Char)
    (hd : date.length = 8) (hdd : date.all Char.isDigit = true)
    (ht : time.length = 6) (htd : time.all Char.isDigit = true) :
    matchStampHere ('_' :: (date ++ '-' :: (time ++ ".jsonl".data)))
      = some (date ++ '-' :: time) := by
  have e1 : (date ++ '-' :: (time ++ ".jsonl".data)).take 8 = date := by
    rw [List.take_append_of_le_length (by omega), List.take_of_length_le (by omega)]
  have e2 : (date ++ '-' :: (time ++ ".jsonl".data)).drop 8 = '-' :: (time ++ ".jsonl".data) := by
    rw [← hd]; exact List.drop_left _ _
  have e3 : (date ++ '-' :: (time ++ ".jsonl".data)).drop 9 = time ++ ".jsonl".data := by
    have : (9 : Nat) = 8 + 1 := rfl
    rw [this, ← List.drop_drop, e2]
    rfl
  have e4 : (time ++ ".jsonl".data).take 6 = time := by
    rw [List.take_append_of_le_length (by omega), List.take_of_length_le (by omega)]
  have e5 : (date ++ '-' :: (time ++ ".jsonl".data)).drop 15 = ".jsonl".data := by
    have : (15 : Nat) = 9 + 6 := rfl
    rw [this, ← List.drop_drop, e3, ← ht]
    exact List.drop_left _ _
  have e6 : (date ++ '-' :: (time ++ ".jsonl".data)).take 15 = date ++ '-' :: time := by
    have h15 : (15 : Nat) = date.length + 7 := by omega
    rw [h15, List.take_append]
    congr 1
    show '-' :: List.take 6 (time ++ ".jsonl".data) = _
    rw [e4]
  simp only [matchStampHere, e1, e2, e3, e4, e5, e6]
  simp [hd, hdd, ht, htd]



theorem matchStampHere_sound (cs ts : List Char) (h : matchStampHere cs = some ts) :
    ∃ date time : List Char,
      cs = '_' :: (date ++ '-' :: (time ++ ".jsonl".data))
      ∧ date.length = 8 ∧ date.all Char.isDigit = true
      ∧ time.length = 6 ∧ time.all Char.isDigit = true
      ∧ ts = date ++ '-' :: time := by
  cases cs with
  | nil => simp [matchStampHere] at h
  | cons c rest =>
    simp only [matchStampHere] at h
    split at h
    · rename_i hc
      obtain ⟨hc1, hd, hdd, hdash, ht, htd, hext⟩ := hc
      have r1 : rest = rest.take 8 ++ rest.drop 8 := (List.take_append_drop 8 rest).symm
      have r2 : rest.drop 8 = '-' :: rest.drop 9 := by
        cases hr : rest.drop 8 with
        | nil => rw [hr] at hdash; cases hdash
        | cons x xs =>
          rw [hr] at hdash
          simp at hdash
          have : rest.drop 9 = xs := by
            have h9 : (9 : Nat) = 8 + 1 := rfl
            rw [h9, ← List.drop_drop, hr]
            rfl
          rw [this, hdash]
      have r3 : rest.drop 9 = (rest.drop 9).take 6 ++ rest.drop 15 := by
        have : rest.drop 15 = (rest.drop 9).drop 6 := by
          rw [List.drop_drop]
        rw [this]
        exact (List.take_append_drop 6 _).symm
      have r4 : rest.take 15 = rest.take 8 ++ '-' :: (rest.drop 9).take 6 := by
        have h15 : (15 : Nat) = 8 + 7 := rfl
        rw [h15, List.take_add, r2]
        rfl
      refine ⟨rest.take 8, (rest.drop 9).take 6, ?_, hd, hdd, ht, htd, ?_⟩
      · have hext' : rest.drop 15 = ".jsonl".data := hext
        rw [hc1, ← hext', ← r3, ← r2, ← r1]
      · cases h
        exact r4
    · cases h

theorem matchStampChars_complete (pre date time : List Char)
    (hd : date.length = 8) (hdd : date.all Char.isDigit = true)
    (ht : time.length = 6) (htd : time.all Char.isDigit = true) :
    matchStampChars (pre ++ '_' :: (date ++ '-' :: (time ++ ".jsonl".data)))
      = some (date ++ '-' :: time) := by
  induction pre with
  | nil =>
    simp only [List.nil_append, matchStampChars]
    rw [matchStampHere_stamp date time hd hdd ht htd]
  | cons p pre ih =>
    simp only [List.cons_append, matchStampChars]
    cases hm : matchStampHere (p :: (pre ++ '_' :: (date ++ '-' :: (time ++ ".jsonl".data)))) with
    | none => simpa using ih
    | some ts =>
      have hl := matchStampHere_length _ _ hm
      have : (".jsonl".data).length = 6 := by decide
      simp at hl
      omega

theorem matchStampChars_sound (cs ts : List Char) (h : matchStampChars cs = some ts) :
    ∃ pre date time : List Char,
      cs = pre ++ '_' :: (date ++ '-' :: (time ++ ".jsonl".data))
      ∧ date.length = 8 ∧ date.all Char.isDigit = true
      ∧ time.length = 6 ∧ time.all Char.isDigit = true
      ∧ ts = date ++ '-' :: time := by
  induction cs with
  | nil => simp [matchStampChars] at h
  | cons c rest ih =>
    simp only [matchStampChars] at h
    cases hm : matchStampHere (c :: rest) with
    | some ts' =>
      rw [hm] at h
      cases h
      obtain ⟨date, time, hcs, hrest⟩ := matchStampHere_sound _ _ hm
      exact ⟨[], date, time, by simpa using hcs, hrest⟩
    | none =>
      rw [hm] at h
      obtain ⟨pre, date, time, hcs, hrest⟩ := ih h
      exact ⟨c :: pre, date, time, by simp [hcs], hrest⟩

theorem matchStamp_of_endsInStamp (name : String) (date time : List Char)
    (h : EndsInStamp name date time) :
    matchStamp name = some (String.mk (date ++ '-' :: time)) := by
  obtain ⟨pre, hn, hd, hdd, ht, htd⟩ := h
  unfold matchStamp
  rw [hn, matchStampChars_complete pre date time hd hdd ht htd]
  rfl

theorem endsInStamp_of_matchStamp (name ts : String) (h : matchStamp name = some ts) :
    ∃ date time : List Char, EndsInStamp name date time
      ∧ ts = String.mk (date ++ '-' :: time) := by
  unfold matchStamp at h
  cases hm : matchStampChars name.data with
  | none => rw [hm] at h; cases h
  | some cs =>
    rw [hm] at h
    obtain ⟨pre, date, time, hcs, hd, hdd, ht, htd, hts⟩ := matchStampChars_sound _ _ hm
    refine ⟨date, time, ⟨pre, hcs, hd, hdd, ht, htd⟩, ?_⟩
    simp at h
    rw [← h, hts]

theorem matchStamp_none_of_no_stamp (name : String)
    (h : ¬ ∃ date time : List Char, EndsInStamp name date time) :
    matchStamp name = none := by
  cases hm : matchStamp name with
  | none => rfl
  | some ts =>
    obtain ⟨date, time, he, _⟩ := endsInStamp_of_matchStamp name ts hm
    exact absurd ⟨date, time, he⟩ h

theorem backupDateOf_of_stamp (H : Host) (b : Backup) (date time : List Char) (d : Moment)
    (hname : EndsInStamp b.name date time)
    (hparse : H.momentFormat (String.mk (date ++ '-' :: time)) = .ok d)
    (hvalid : d.valid = true) :
    backupDateOf H b = some d := by
  unfold backupDateOf
  simp [matchStamp_of_endsInStamp b.name date time hname, hparse, hvalid]

theorem backupDateOf_of_no_stamp (H : Host) (b : Backup)
    (hname : (¬ ∃ date time : List Char, EndsInStamp b.name date time)
      ∨ ∃ date time : List Char, EndsInStamp b.name date time
          ∧ ((∃ e, H.momentFormat (String.mk (date ++ '-' :: time)) = .error e)
            ∨ ∃ d, H.momentFormat (String.mk (date ++ '-' :: time)) = .ok d
                ∧ d.valid = false)) :
    backupDateOf H b = if b.mtime.truthy then some (H.momentOf b.mtime) else none := by
  unfold backupDateOf
  rcases hname with h | ⟨date, time, he, hbad⟩
  · simp [matchStamp_none_of_no_stamp b.name h]
  · rw [matchStamp_of_endsInStamp b.name date time he]
    rcases hbad with ⟨e, he'⟩ | ⟨d, hd, hv⟩
    · simp [he']
    · simp [hd, hv]

theorem pushesExpiredBackup_of_date (H : Host) (b : Backup) (N : Int) (d : Moment)
    (hd : backupDateOf H b = some d) (hv : d.valid = true) :
    pushesExpiredBackup H b N = true ↔ diffDays H.now d > N := by
  unfold pushesExpiredBackup
  simp [hd, hv]

/-! ## Claims about the filters -/

/-- C1 (failing input): the selected character is `seraphina`, whose open chat
`story.jsonl.bak` is stored as `story.jsonl.bak.jsonl` and is 100 days old.  The
candidate is the active conversation in the words of the specification, yet
`file_name.replace('.jsonl', '')` removes the first `.jsonl` and yields
`story.bak.jsonl`, the comparison with `currentChat` fails, and
`filterExpiredChats` returns the open chat. -/
theorem filterExpiredChats_returns_open_chat :
    currentChatOf seraphinaHost = JSVal.str "story.jsonl.bak"
    ∧ isActiveConversation seraphinaHost openChatOfSeraphina
        (JSVal.num 0) (JSVal.str "story.jsonl.bak") JSVal.undefined = true
    ∧ replaceJsonl "story.jsonl.bak.jsonl" = "story.bak.jsonl"
    ∧ filterExpiredChats seraphinaHost [openChatOfSeraphina] 90
        (JSVal.num 0) (JSVal.str "story.jsonl.bak") JSVal.undefined
      = [openChatOfSeraphina] := by
  decide

/-- For a candidate that the loop does not skip as the open chat and whose
`last_mes` parses to the valid instant `m`, `filterExpiredChats` returns it iff
the whole-day difference `now.diff(m, 'days')` is strictly greater than the
threshold: not at exactly `N` days, and at `N + 1` days; the difference is
truncated, so `N` days and any part of a day is still `N`.  The same
comparison on the backup's date decides `filterExpiredBackups`. -/
theorem expiry_is_strict_whole_day_comparison (H : Host) (N : Int)
    (allChats : List ChatInfo) (cid chat gid : JSVal) (c : ChatInfo) (m : Moment)
    (hmem : c ∈ allChats) (hopen : skipsOpenChat H c cid chat gid = false)
    (hpresent : c.chatData.last_mes.truthy = true)
    (hparse : H.timestampToMoment c.chatData.last_mes = .ok m)
    (hvalid : m.valid = true) :
    (c ∈ filterExpiredChats H allChats N cid chat gid ↔ diffDays H.now m > N)
    ∧ (diffDays H.now m = N → c ∉ filterExpiredChats H allChats N cid chat gid)
    ∧ (diffDays H.now m = N + 1 → c ∈ filterExpiredChats H allChats N cid chat gid)
    ∧ (∀ r : Int, 0 ≤ N → 0 ≤ r → r < msPerDay → H.now - m.wall = N * msPerDay + r →
        c ∉ filterExpiredChats H allChats N cid chat gid)
    ∧ (∀ r : Int, 0 ≤ N → 0 ≤ r → r < msPerDay →
        H.now - m.wall = (N + 1) * msPerDay + r →
        c ∈ filterExpiredChats H allChats N cid chat gid)
    ∧ (∀ (backups : List Backup) (b : Backup) (d : Moment), b ∈ backups →
        backupDateOf H b = some d → d.valid = true →
        (b ∈ filterExpiredBackups H backups N ↔ diffDays H.now d > N)) := by
  have key : c ∈ filterExpiredChats H allChats N cid chat gid ↔ diffDays H.now m > N := by
    rw [mem_filterExpiredChats, pushesExpired_of_parse H N c m hpresent hparse hvalid]
    constructor
    · rintro ⟨_, _, h⟩
      exact h
    · intro h
      exact ⟨hmem, hopen, h⟩
  refine ⟨key, ?_, ?_, ?_, ?_, ?_⟩
  · intro h
    rw [key, h]
    exact lt_irrefl N
  · intro h
    rw [key, h]
    exact Int.lt_succ N
  · intro r hN hr0 hr h
    rw [key, diffDays_of_elapsed H.now m N r hN hr0 hr h]
    exact lt_irrefl N
  · intro r hN hr0 hr h
    rw [key, diffDays_of_elapsed H.now m (N + 1) r (by omega) hr0 hr h]
    exact Int.lt_succ N
  · intro backups b d hb hd hv
    rw [mem_filterExpiredBackups]
    unfold pushesExpiredBackup
    simp [hd, hv, hb]

/-- An instance: threshold 90; a chat of `seraphina` that is not open and is
exactly 90 days old. -/
theorem expiry_is_strict_whole_day_comparison_witness :
    otherChatOfSeraphina 90 ∉ filterExpiredChats seraphinaHost [otherChatOfSeraphina 90] 90
      (JSVal.num 0) (JSVal.str "story.jsonl.bak") JSVal.undefined :=
  (expiry_is_strict_whole_day_comparison seraphinaHost 90 [otherChatOfSeraphina 90]
    (JSVal.num 0) (JSVal.str "story.jsonl.bak") JSVal.undefined (otherChatOfSeraphina 90)
    { valid := true, wall := daysAgo 90 }
    (by decide) (by decide) (by decide) (by rfl) (by rfl)).2.1 (by decide)

/-- C3: a candidate whose `last_mes` is falsy (null, missing, empty), or makes
`timestampToMoment` throw, or parses to an invalid moment, is not returned, and
the candidates before and after it are filtered as if it were absent. -/
theorem unparsable_last_mes_not_returned (H : Host) (N : Int) (cid chat gid : JSVal)
    (before after : List ChatInfo) (c : ChatInfo)
    (hbad : c.chatData.last_mes.truthy = false
      ∨ (∃ e, H.timestampToMoment c.chatData.last_mes = .error e)
      ∨ (∃ m, H.timestampToMoment c.chatData.last_mes = .ok m ∧ m.valid = false)) :
    c ∉ filterExpiredChats H (before ++ c :: after) N cid chat gid
    ∧ filterExpiredChats H (before ++ c :: after) N cid chat gid
      = filterExpiredChats H before N cid chat gid
        ++ filterExpiredChats H after N cid chat gid := by
  have hp : pushesExpired H c N = false := by
    rw [Bool.eq_false_iff]
    intro h
    rw [pushesExpired_iff] at h
    obtain ⟨ht, m, hm, hv, _⟩ := h
    rcases hbad with h1 | ⟨e, he⟩ | ⟨m', hm', hv'⟩
    · rw [ht] at h1; cases h1
    · rw [hm] at he; cases he
    · rw [hm] at hm'; cases hm'; rw [hv] at hv'; cases hv'
  constructor
  · rw [mem_filterExpiredChats]
    rintro ⟨_, _, h⟩
    rw [hp] at h
    cases h
  · simp [filterExpiredChats_eq_filter, List.filter_cons, keepsChat, hp]

/-- C3 (witness): a chat without `last_mes` between two expired chats. -/
theorem unparsable_last_mes_not_returned_witness :
    filterExpiredChats seraphinaHost
      ([otherChatOfSeraphina 91] ++ undatedChatOfSeraphina :: [otherChatOfSeraphina 200]) 90
      (JSVal.num 0) (JSVal.str "story.jsonl.bak") JSVal.undefined
    = filterExpiredChats seraphinaHost [otherChatOfSeraphina 91] 90
        (JSVal.num 0) (JSVal.str "story.jsonl.bak") JSVal.undefined
      ++ filterExpiredChats seraphinaHost [otherChatOfSeraphina 200] 90
        (JSVal.num 0) (JSVal.str "story.jsonl.bak") JSVal.undefined :=
  (unparsable_last_mes_not_returned seraphinaHost 90
    (JSVal.num 0) (JSVal.str "story.jsonl.bak") JSVal.undefined
    [otherChatOfSeraphina 91] [otherChatOfSeraphina 200] undatedChatOfSeraphina
    (Or.inl (by decide))).2

/-- The loop as a filter: `filterExpiredChats` returns the input filtered by
"not skipped as the open chat and expired": a sublist of the input in input order, holding each kept
candidate unchanged and no more often than the input does; its members are the
members of the input that are not skipped and whose `last_mes` is a valid
instant more than `expirationDays` whole days old.  On a candidate whose file
name has `.jsonl` as its final extension only, "not skipped" is "not the active
conversation" of the specification.  With threshold 90 and one candidate, not
skipped, 91 days old, the result is that candidate. -/
theorem filterExpiredChats_is_ordered_sublist (H : Host) (N : Int)
    (allChats : List ChatInfo) (cid chat gid : JSVal) :
    filterExpiredChats H allChats N cid chat gid
      = allChats.filter (fun c => !skipsOpenChat H c cid chat gid && pushesExpired H c N)
    ∧ List.Sublist (filterExpiredChats H allChats N cid chat gid) allChats
    ∧ (∀ c, (filterExpiredChats H allChats N cid chat gid).count c ≤ allChats.count c)
    ∧ (∀ c, c ∈ filterExpiredChats H allChats N cid chat gid
        ↔ c ∈ allChats ∧ skipsOpenChat H c cid chat gid = false
          ∧ c.chatData.last_mes.truthy = true
          ∧ ∃ m, H.timestampToMoment c.chatData.last_mes = .ok m ∧ m.valid = true
            ∧ diffDays H.now m > N)
    ∧ (∀ c, replaceJsonl c.chatData.file_name = stripExtension c.chatData.file_name →
        (c.isGroup = true → ∃ g, c.group = some g ∧ g.id.truthy = true) →
        (c ∈ filterExpiredChats H allChats N cid chat gid
          ↔ c ∈ allChats ∧ isActiveConversation H c cid chat gid = false
            ∧ pushesExpired H c N = true))
    ∧ (∀ (c : ChatInfo) (m : Moment), skipsOpenChat H c cid chat gid = false →
        c.chatData.last_mes.truthy = true →
        H.timestampToMoment c.chatData.last_mes = .ok m → m.valid = true →
        diffDays H.now m = 91 →
        filterExpiredChats H [c] 90 cid chat gid = [c]) := by
  have hf : filterExpiredChats H allChats N cid chat gid
      = allChats.filter (fun c => !skipsOpenChat H c cid chat gid && pushesExpired H c N) :=
    filterExpiredChats_eq_filter H N cid chat gid allChats
  have hs : List.Sublist (filterExpiredChats H allChats N cid chat gid) allChats := by
    rw [hf]
    exact List.filter_sublist _
  refine ⟨hf, hs, fun c => hs.count_le c, ?_, ?_, ?_⟩
  · intro c
    rw [mem_filterExpiredChats, pushesExpired_iff]
  · intro c hname hgroup
    rw [mem_filterExpiredChats,
      skipsOpenChat_eq_isActiveConversation H c cid chat gid hname hgroup]
  · intro c m hopen ht hp hv hd
    have hpush : pushesExpired H c 90 = true := by
      rw [pushesExpired_of_parse H 90 c m ht hp hv, hd]
      decide
    simp [filterExpiredChats_eq_filter, keepsChat, hopen, hpush]

/-- An instance: threshold 90 and the only candidate a chat of `seraphina`
that is not open and is 91 days old. -/
theorem filterExpiredChats_is_ordered_sublist_witness :
    filterExpiredChats seraphinaHost [otherChatOfSeraphina 91] 90
      (JSVal.num 0) (JSVal.str "story.jsonl.bak") JSVal.undefined
    = [otherChatOfSeraphina 91] :=
  (filterExpiredChats_is_ordered_sublist seraphinaHost 90 []
    (JSVal.num 0) (JSVal.str "story.jsonl.bak") JSVal.undefined).2.2.2.2.2
    (otherChatOfSeraphina 91) { valid := true, wall := daysAgo 91 }
    (by decide) (by decide) (by rfl) (by rfl) (by decide)

/-- C6: a backup whose name ends in `_{8 digits}-{6 digits}.jsonl` with a stamp
that `moment` parses to the valid instant `d` is returned by
`filterExpiredBackups` iff `d` is more than `expirationDays` whole days before
now, whatever its `mtime` holds.  For `chat_seraphina_20250101-120000.jsonl`,
now 120 days after the stamp and threshold 90, the backup is returned for every
`mtime`. -/
theorem stamped_backup_expires_by_file_name (H : Host) (N : Int) (backups : List Backup)
    (b : Backup) (date time : List Char) (d : Moment)
    (hmem : b ∈ backups) (hname : EndsInStamp b.name date time)
    (hparse : H.momentFormat (String.mk (date ++ '-' :: time)) = .ok d)
    (hvalid : d.valid = true) :
    (b ∈ filterExpiredBackups H backups N ↔ diffDays H.now d > N)
    ∧ (∀ mtime : JSVal,
        filterExpiredBackups H [{ b with mtime := mtime }] N
          = if diffDays H.now d > N then [{ b with mtime := mtime }] else [])
    ∧ (∀ (hash : String) (mtime : JSVal) (w : Int),
        H.momentFormat "20250101-120000" = .ok { valid := true, wall := w } →
        H.now = w + 120 * msPerDay →
        filterExpiredBackups H
          [{ name := "chat_seraphina_20250101-120000.jsonl", hash := hash, mtime := mtime }] 90
        = [{ name := "chat_seraphina_20250101-120000.jsonl", hash := hash, mtime := mtime }]) := by
  refine ⟨?_, ?_, ?_⟩
  · rw [mem_filterExpiredBackups,
      pushesExpiredBackup_of_date H b N d (backupDateOf_of_stamp H b date time d hname hparse hvalid)
        hvalid]
    exact ⟨fun h => h.2, fun h => ⟨hmem, h⟩⟩
  · intro mtime
    have hd : backupDateOf H { b with mtime := mtime } = some d :=
      backupDateOf_of_stamp H { b with mtime := mtime } date time d hname hparse hvalid
    have hp := pushesExpiredBackup_of_date H { b with mtime := mtime } N d hd hvalid
    by_cases hlt : diffDays H.now d > N
    · simp [filterExpiredBackups_eq_filter, hp.mpr hlt, hlt]
    · have : pushesExpiredBackup H { b with mtime := mtime } N = false := by
        rw [Bool.eq_false_iff]
        exact fun h => hlt (hp.mp h)
      simp [filterExpiredBackups_eq_filter, this, hlt]
  · intro hash mtime w hw hnow
    have hm : matchStamp "chat_seraphina_20250101-120000.jsonl" = some "20250101-120000" := by
      decide
    have hd : backupDateOf H
        { name := "chat_seraphina_20250101-120000.jsonl", hash := hash, mtime := mtime }
        = some { valid := true, wall := w } := by
      unfold backupDateOf
      simp [hm, hw]
    have hdiff : diffDays H.now { valid := true, wall := w } = 120 := by
      apply diffDays_of_elapsed H.now _ 120 0 (by decide) (by decide) (by decide)
      simp [hnow]
    have hp := (pushesExpiredBackup_of_date H _ 90 _ hd rfl).mpr (by rw [hdiff]; decide)
    simp [filterExpiredBackups_eq_filter, hp]

/-- C6 (witness): the backup `chat_seraphina_20250101-120000.jsonl`, touched
yesterday, 120 days after its stamp and with threshold 90. -/
theorem stamped_backup_expires_by_file_name_witness :
    stampedBackup 1 ∈ filterExpiredBackups seraphinaHost [stampedBackup 1] 90 :=
  (stamped_backup_expires_by_file_name seraphinaHost 90 [stampedBackup 1] (stampedBackup 1)
    "20250101".data "120000".data { valid := true, wall := 1735732800000 }
    (by decide) ⟨"chat_seraphina".data, by decide, by decide, by decide, by decide, by decide⟩
    (by rfl) (by rfl)).1.mpr (by decide)

/-- C7: a backup whose name has no `_{8 digits}-{6 digits}.jsonl` suffix, or
whose stamp makes `moment` throw or parses to an invalid moment, is returned by
`filterExpiredBackups` iff its `mtime` is present (truthy), is a valid instant
and is more than `expirationDays` whole days before now; without an `mtime` it
is returned for no threshold; with an `mtime` 100 days old and threshold 90 it
is returned. -/
theorem unstamped_backup_expires_by_mtime (H : Host) (N : Int) (backups : List Backup)
    (b : Backup) (hmem : b ∈ backups)
    (hname : (¬ ∃ date time : List Char, EndsInStamp b.name date time)
      ∨ ∃ date time : List Char, EndsInStamp b.name date time
          ∧ ((∃ e, H.momentFormat (String.mk (date ++ '-' :: time)) = .error e)
            ∨ ∃ d, H.momentFormat (String.mk (date ++ '-' :: time)) = .ok d
                ∧ d.valid = false)) :
    (b ∈ filterExpiredBackups H backups N
      ↔ b.mtime.truthy = true ∧ (H.momentOf b.mtime).valid = true
        ∧ diffDays H.now (H.momentOf b.mtime) > N)
    ∧ (b.mtime.truthy = false → ∀ N' : Int, b ∉ filterExpiredBackups H backups N')
    ∧ (b.mtime.truthy = true → (H.momentOf b.mtime).valid = true →
        diffDays H.now (H.momentOf b.mtime) = 100 →
        b ∈ filterExpiredBackups H backups 90) := by
  have hd := backupDateOf_of_no_stamp H b hname
  have key : ∀ N' : Int, b ∈ filterExpiredBackups H backups N'
      ↔ b.mtime.truthy = true ∧ (H.momentOf b.mtime).valid = true
        ∧ diffDays H.now (H.momentOf b.mtime) > N' := by
    intro N'
    rw [mem_filterExpiredBackups]
    unfold pushesExpiredBackup
    rw [hd]
    by_cases ht : b.mtime.truthy = true
    · by_cases hv : (H.momentOf b.mtime).valid = true
      · simp [ht, hv, hmem]
      · simp [ht, hv]
    · simp [ht]
  refine ⟨key N, ?_, ?_⟩
  · intro hf N' h
    rw [key N'] at h
    rw [h.1] at hf
    cases hf
  · intro ht hv h100
    rw [key 90]
    refine ⟨ht, hv, ?_⟩
    rw [h100]
    decide

/-- C7 (witness): `chat_seraphina_latest.jsonl` with an `mtime` 100 days old
and threshold 90. -/
theorem unstamped_backup_expires_by_mtime_witness :
    unstampedBackup (JSVal.num (daysAgo 100))
      ∈ filterExpiredBackups seraphinaHost [unstampedBackup (JSVal.num (daysAgo 100))] 90 :=
  (unstamped_backup_expires_by_mtime seraphinaHost 90
    [unstampedBackup (JSVal.num (daysAgo 100))] (unstampedBackup (JSVal.num (daysAgo 100)))
    (by decide)
    (Or.inl (by
      rintro ⟨date, time, he⟩
      have h := matchStamp_of_endsInStamp _ date time he
      have hn : matchStamp (unstampedBackup (JSVal.num (daysAgo 100))).name = none := by decide
      rw [hn] at h
      cases h))).2.2 (by decide) (by rfl) (by decide)

/-! ## The deletion loops -/

theorem ownerName_of_hasOwner (c : ChatInfo) (h : hasOwner c = true) :
    ownerName c = .ok (ownerNameOf c) := by
  unfold hasOwner at h
  unfold ownerName ownerNameOf
  cases hg : c.isGroup
  · rw [hg] at h
    cases hc : c.character with
    | none => rw [hc] at h; cases h
    | some ch => simp
  · rw [hg] at h
    cases hc : c.group with
    | none => rw [hc] at h; cases h
    | some g => simp

theorem lastMesText_of_pushesExpired (H : Host) (N : Int) (c : ChatInfo)
    (h : pushesExpired H c N = true) : lastMesText H c = .ok () := by
  rw [pushesExpired_iff] at h
  obtain ⟨ht, m, hm, _, _⟩ := h
  simp [lastMesText, ht, hm]

theorem deleteChat_of_hasOwner (W : World) (c : ChatInfo) (t : List Call)
    (h : hasOwner c = true) :
    deleteChat W c t
      = ((W.deleteResponse (t ++ (deleteCallOf c).toList)).isOk, t ++ (deleteCallOf c).toList) := by
  unfold hasOwner at h
  unfold deleteChat deleteCallOf
  cases hg : c.isGroup
  · rw [hg] at h
    cases hc : c.character with
    | none => rw [hc] at h; cases h
    | some ch =>
      simp only [Bool.false_eq_true, if_false, Option.map_some', Option.toList_some]
      cases W.deleteResponse (t ++ [Call.chatsDelete c.chatData.file_name ch.avatar]) <;> rfl
  · simp only [if_true, Option.toList_some]
    cases W.deleteResponse (t ++ [Call.groupChatsDelete c.chatData.file_name]) <;> rfl

theorem deleteCallOf_toList_length (c : ChatInfo) (h : hasOwner c = true) :
    (deleteCallOf c).toList.length = 1 := by
  unfold hasOwner at h
  unfold deleteCallOf
  cases hg : c.isGroup
  · rw [hg] at h
    cases hc : c.character with
    | none => rw [hc] at h; cases h
    | some ch => simp
  · simp

theorem expireChatsLoop_spec (H : Host) (W : World) (N : Int) (xs : List ChatInfo) :
    ∀ (tally : ChatTally) (t : List Call),
      (∀ c ∈ xs, hasOwner c = true ∧ pushesExpired H c N = true) →
      expireChatsLoop H W xs tally t
        = (.ok
            { chatSuccessCount :=
                tally.chatSuccessCount + (deleteAnswers W xs t).countP Fetched.isOk
              chatFailCount :=
                tally.chatFailCount + (deleteAnswers W xs t).countP (fun r => !r.isOk)
              failedChats :=
                tally.failedChats
                  ++ ((xs.zip (deleteAnswers W xs t)).filter (fun p => !p.2.isOk)).map
                      (fun p => failedLabel p.1) },
           t ++ xs.filterMap deleteCallOf) := by
  induction xs with
  | nil => intro tally t _; simp [expireChatsLoop, deleteAnswers]
  | cons c rest ih =>
    intro tally t h
    have hc := h c (List.mem_cons_self _ _)
    have hrest : ∀ c' ∈ rest, hasOwner c' = true ∧ pushesExpired H c' N = true :=
      fun c' hc' => h c' (List.mem_cons_of_mem _ hc')
    obtain ⟨call, hcall⟩ : ∃ call, deleteCallOf c = some call := by
      have := deleteCallOf_toList_length c hc.1
      cases hd : deleteCallOf c with
      | none => rw [hd] at this; simp at this
      | some call => exact ⟨call, rfl⟩
    unfold expireChatsLoop
    simp only [ownerName_of_hasOwner c hc.1, lastMesText_of_pushesExpired H N c hc.2,
      deleteChat_of_hasOwner W c t hc.1, deleteAnswers, hcall, Option.toList_some]
    cases hans : W.deleteResponse (t ++ [call]) <;>
      simp [Fetched.isOk, ih _ _ hrest, List.filterMap_cons, hcall, List.countP_cons,
        failedLabel, Nat.add_assoc, Nat.add_comm 1] 

theorem autoExpireChatsLoop_spec (H : Host) (W : World) (N : Int) (xs : List ChatInfo) :
    ∀ (counts : Nat × Nat) (t : List Call),
      (∀ c ∈ xs, hasOwner c = true ∧ pushesExpired H c N = true) →
      autoExpireChatsLoop H W xs counts t
        = (.ok (counts.1 + (deleteAnswers W xs t).countP Fetched.isOk,
                counts.2 + (deleteAnswers W xs t).countP (fun r => !r.isOk)),
           t ++ xs.filterMap deleteCallOf) := by
  induction xs with
  | nil => intro counts t _; simp [autoExpireChatsLoop, deleteAnswers]
  | cons c rest ih =>
    intro counts t h
    have hc := h c (List.mem_cons_self _ _)
    have hrest : ∀ c' ∈ rest, hasOwner c' = true ∧ pushesExpired H c' N = true :=
      fun c' hc' => h c' (List.mem_cons_of_mem _ hc')
    obtain ⟨call, hcall⟩ : ∃ call, deleteCallOf c = some call := by
      have := deleteCallOf_toList_length c hc.1
      cases hd : deleteCallOf c with
      | none => rw [hd] at this; simp at this
      | some call => exact ⟨call, rfl⟩
    unfold autoExpireChatsLoop
    simp only [ownerName_of_hasOwner c hc.1, lastMesText_of_pushesExpired H N c hc.2,
      deleteChat_of_hasOwner W c t hc.1, deleteAnswers, hcall, Option.toList_some]
    cases hans : W.deleteResponse (t ++ [call]) <;>
      simp [Fetched.isOk, ih _ _ hrest, List.filterMap_cons, hcall, List.countP_cons,
        Nat.add_assoc, Nat.add_comm 1]

theorem deleteAnswers_length (W : World) (xs : List ChatInfo) :
    ∀ t : List Call, (deleteAnswers W xs t).length = xs.length := by
  induction xs with
  | nil => intro t; rfl
  | cons c rest ih => intro t; simp [deleteAnswers, ih]

theorem countP_isOk_add (a : List (Fetched Unit)) :
    a.countP Fetched.isOk + a.countP (fun r => !r.isOk) = a.length := by
  induction a with
  | nil => rfl
  | cons r rest ih =>
    have e : ∀ x : Fetched Unit,
        (if x.isOk = true then 1 else 0) + (if (!x.isOk) = true then 1 else 0) = 1 := by
      intro x; cases x <;> rfl
    have := e r
    simp only [List.countP_cons, List.length_cons]
    omega

theorem previewNames_of_hasOwner (xs : List ChatInfo) (h : ∀ c ∈ xs, hasOwner c = true) :
    previewNames xs = .ok (xs.map ownerNameOf) := by
  induction xs with
  | nil => rfl
  | cons c rest ih =>
    have hc := h c (List.mem_cons_self _ _)
    have hrest : ∀ c' ∈ rest, hasOwner c' = true :=
      fun c' hc' => h c' (List.mem_cons_of_mem _ hc')
    simp [previewNames, ownerName_of_hasOwner c hc, ih hrest]

/-! ## The candidates and the trace of getExpiredItems -/

theorem getAllChatsCharacters_spec (W : World) (cs : List Character) :
    ∀ (acc : List ChatInfo) (t : List Call),
      (∀ c ∈ acc, hasOwner c = true) →
      (∀ c ∈ (getAllChatsCharacters W cs acc t).1, hasOwner c = true)
      ∧ ∃ extra : List Call, (getAllChatsCharacters W cs acc t).2 = t ++ extra
          ∧ ∀ call ∈ extra, call.isQuery = true := by
  induction cs with
  | nil =>
    intro acc t h
    exact ⟨by simpa [getAllChatsCharacters] using h, [], by simp [getAllChatsCharacters], by simp⟩
  | cons ch rest ih =>
    intro acc t h
    unfold getAllChatsCharacters
    by_cases ha : ch.avatar.truthy = true
    · simp only [ha, Bool.not_true, Bool.false_eq_true, if_false]
      cases hs : W.searchResponse (t ++ [Call.chatsSearch ch.avatar JSVal.null]) with
      | ok chatsData =>
        simp only
        have hacc : ∀ c ∈ acc ++ chatsData.map (fun chat =>
            ({ character := some ch, group := none, chatData := chat, isGroup := false } :
              ChatInfo)), hasOwner c = true := by
          intro c hc
          rcases List.mem_append.mp hc with h1 | h2
          · exact h c h1
          · obtain ⟨chat, _, rfl⟩ := List.mem_map.mp h2
            rfl
        obtain ⟨h1, extra, h2, h3⟩ := ih _ (t ++ [Call.chatsSearch ch.avatar JSVal.null]) hacc
        refine ⟨h1, Call.chatsSearch ch.avatar JSVal.null :: extra, by simp [h2], ?_⟩
        intro call hcall
        rcases List.mem_cons.mp hcall with rfl | hm
        · rfl
        · exact h3 call hm
      | notOk =>
        simp only
        obtain ⟨h1, extra, h2, h3⟩ := ih acc (t ++ [Call.chatsSearch ch.avatar JSVal.null]) h
        refine ⟨h1, Call.chatsSearch ch.avatar JSVal.null :: extra, by simp [h2], ?_⟩
        intro call hcall
        rcases List.mem_cons.mp hcall with rfl | hm
        · rfl
        · exact h3 call hm
      | threw =>
        simp only
        obtain ⟨h1, extra, h2, h3⟩ := ih acc (t ++ [Call.chatsSearch ch.avatar JSVal.null]) h
        refine ⟨h1, Call.chatsSearch ch.avatar JSVal.null :: extra, by simp [h2], ?_⟩
        intro call hcall
        rcases List.mem_cons.mp hcall with rfl | hm
        · rfl
        · exact h3 call hm
    · simp only [ha, Bool.not_false, if_true]
      exact ih acc t h

theorem getAllChatsGroups_spec (W : World) (gs : List Group) :
    ∀ (acc : List ChatInfo) (t : List Call),
      (∀ c ∈ acc, hasOwner c = true) →
      (∀ c ∈ (getAllChatsGroups W gs acc t).1, hasOwner c = true)
      ∧ ∃ extra : List Call, (getAllChatsGroups W gs acc t).2 = t ++ extra
          ∧ ∀ call ∈ extra, call.isQuery = true := by
  induction gs with
  | nil =>
    intro acc t h
    exact ⟨by simpa [getAllChatsGroups] using h, [], by simp [getAllChatsGroups], by simp⟩
  | cons g rest ih =>
    intro acc t h
    unfold getAllChatsGroups
    by_cases ha : g.id.truthy = true
    · simp only [ha, Bool.not_true, Bool.false_eq_true, if_false]
      cases hs : W.searchResponse (t ++ [Call.chatsSearch JSVal.null g.id]) with
      | ok chatsData =>
        simp only
        have hacc : ∀ c ∈ acc ++ chatsData.map (fun chat =>
            ({ character := none, group := some g, chatData := chat, isGroup := true } :
              ChatInfo)), hasOwner c = true := by
          intro c hc
          rcases List.mem_append.mp hc with h1 | h2
          · exact h c h1
          · obtain ⟨chat, _, rfl⟩ := List.mem_map.mp h2
            rfl
        obtain ⟨h1, extra, h2, h3⟩ := ih _ (t ++ [Call.chatsSearch JSVal.null g.id]) hacc
        refine ⟨h1, Call.chatsSearch JSVal.null g.id :: extra, by simp [h2], ?_⟩
        intro call hcall
        rcases List.mem_cons.mp hcall with rfl | hm
        · rfl
        · exact h3 call hm
      | notOk =>
        simp only
        obtain ⟨h1, extra, h2, h3⟩ := ih acc (t ++ [Call.chatsSearch JSVal.null g.id]) h
        refine ⟨h1, Call.chatsSearch JSVal.null g.id :: extra, by simp [h2], ?_⟩
        intro call hcall
        rcases List.mem_cons.mp hcall with rfl | hm
        · rfl
        · exact h3 call hm
      | threw =>
        simp only
        obtain ⟨h1, extra, h2, h3⟩ := ih acc (t ++ [Call.chatsSearch JSVal.null g.id]) h
        refine ⟨h1, Call.chatsSearch JSVal.null g.id :: extra, by simp [h2], ?_⟩
        intro call hcall
        rcases List.mem_cons.mp hcall with rfl | hm
        · rfl
        · exact h3 call hm
    · simp only [ha, Bool.not_false, if_true]
      exact ih acc t h

theorem getAllChats_spec (H : Host) (W : World) (t : List Call) :
    (∀ c ∈ (getAllChats H W t).1, hasOwner c = true)
    ∧ ∃ extra : List Call, (getAllChats H W t).2 = t ++ extra
        ∧ ∀ call ∈ extra, call.isQuery = true := by
  unfold getAllChats
  obtain ⟨h1, e1, h2, h3⟩ := getAllChatsCharacters_spec W H.characters [] t (by simp)
  obtain ⟨h4, e2, h5, h6⟩ := getAllChatsGroups_spec W H.groups
    (getAllChatsCharacters W H.characters [] t).1 (getAllChatsCharacters W H.characters [] t).2 h1
  refine ⟨h4, e1 ++ e2, by rw [h5, h2, List.append_assoc], ?_⟩
  intro call hcall
  rcases List.mem_append.mp hcall with h | h
  · exact h3 call h
  · exact h6 call h

/-! ## The traces of the passes -/

theorem finalizeIfToken_eq (tok : JSVal) (t : List Call) :
    finalizeIfToken tok t = t ++ finalizeRequests tok := by
  unfold finalizeIfToken finalizeDataMaid finalizeRequests
  cases h : tok.truthy <;> simp

theorem deleteBackups_request (W : World) (hs : List String) (tok : JSVal) (t : List Call)
    (hn : hs.length ≠ 0) (ht : tok.truthy = true) :
    deleteBackups W hs tok t
      = ({ success := (W.backupsDeleteResponse (t ++ [Call.dataMaidDelete hs tok])).isOk
           count := if (W.backupsDeleteResponse (t ++ [Call.dataMaidDelete hs tok])).isOk
             then hs.length else 0 },
         t ++ [Call.dataMaidDelete hs tok]) := by
  unfold deleteBackups
  have h1 : ¬ (hs.length = 0 ∨ tok.truthy = false) := by
    rintro (h0 | h0)
    · exact hn h0
    · rw [ht] at h0; cases h0
  rw [if_neg h1]
  cases hr : W.backupsDeleteResponse (t ++ [Call.dataMaidDelete hs tok]) <;>
    simp [hr, Fetched.isOk]

theorem backupDeletionStep_eq (W : World) (bs : List Backup) (tok : JSVal)
    (t : List Call) :
    backupDeletionStep W bs tok t
      = (if bs.length > 0 ∧ tok.truthy = true then
          if (W.backupsDeleteResponse (t ++ [Call.dataMaidDelete (bs.map Backup.hash) tok])).isOk
          then (bs.length, 0) else (0, bs.length)
        else (0, 0),
        t ++ backupRequests bs tok) := by
  unfold backupDeletionStep backupRequests
  by_cases h : bs.length > 0 ∧ tok.truthy = true
  · have hn : (bs.map Backup.hash).length ≠ 0 := by
      rw [List.length_map]
      exact Nat.ne_of_gt h.1
    rw [if_pos h, if_pos h, if_pos h]
    simp only [deleteBackups_request W (bs.map Backup.hash) tok t hn h.2, List.length_map]
    cases hr : W.backupsDeleteResponse (t ++ [Call.dataMaidDelete (bs.map Backup.hash) tok]) <;>
      simp [hr, Fetched.isOk]
  · rw [if_neg h, if_neg h, if_neg h, List.append_nil]

theorem backupDeletionStep_trace (W : World) (bs : List Backup) (tok : JSVal)
    (t : List Call) :
    (backupDeletionStep W bs tok t).2 = t ++ backupRequests bs tok := by
  rw [backupDeletionStep_eq]

theorem expireChats_spec (H : Host) (W : World) (N : Int) (xs : List ChatInfo)
    (bs : List Backup) (tok : JSVal) (t : List Call)
    (hexp : ∀ c ∈ xs, hasOwner c = true ∧ pushesExpired H c N = true) :
    expireChats H W xs bs tok t
      = (.ok
          { chatSuccessCount := (deleteAnswers W xs t).countP Fetched.isOk
            chatFailCount := (deleteAnswers W xs t).countP (fun r => !r.isOk)
            backupSuccessCount :=
              (backupDeletionStep W bs tok (t ++ xs.filterMap deleteCallOf)).1.1
            backupFailCount :=
              (backupDeletionStep W bs tok (t ++ xs.filterMap deleteCallOf)).1.2
            failedChats :=
              ((xs.zip (deleteAnswers W xs t)).filter (fun p => !p.2.isOk)).map
                (fun p => failedLabel p.1) },
         t ++ deletionRequests xs bs tok ++ [Call.popupText]) := by
  unfold expireChats
  simp only [expireChatsLoop_spec H W N xs _ t hexp, finalizeIfToken_eq,
    backupDeletionStep_trace, deletionRequests, Nat.zero_add, List.nil_append,
    List.append_assoc]

theorem getExpiredItems_chats (H : Host) (W : World) (t : List Call) :
    ∀ c ∈ (getExpiredItems H W t).1.expiredChats,
      hasOwner c = true ∧ pushesExpired H c (getExpiredItems H W t).1.expirationDays = true := by
  intro c hc
  have hall := (getAllChats_spec H W t).1
  unfold getExpiredItems at hc ⊢
  cases hb : (getSettings H).expireBackups.truthy
  · simp only [hb, Bool.false_eq_true, if_false] at hc ⊢
    rw [mem_filterExpiredChats] at hc
    exact ⟨hall c hc.1, hc.2.2⟩
  · simp only [hb, if_true] at hc ⊢
    rw [mem_filterExpiredChats] at hc
    exact ⟨hall c hc.1, hc.2.2⟩

theorem getAllBackups_trace (W : World) (t : List Call) :
    (getAllBackups W t).2 = t ++ [Call.dataMaidReport] := by
  unfold getAllBackups
  cases hr : W.reportResponse (t ++ [Call.dataMaidReport]) <;> simp [hr]

theorem getExpiredItems_trace (H : Host) (W : World) :
    ∀ call ∈ (getExpiredItems H W []).2, call.isQuery = true := by
  obtain ⟨_, extra, h2, h3⟩ := getAllChats_spec H W []
  intro call hcall
  unfold getExpiredItems at hcall
  cases hb : (getSettings H).expireBackups.truthy
  · simp only [hb, Bool.false_eq_true, if_false] at hcall
    rw [h2] at hcall
    exact h3 call (by simpa using hcall)
  · simp only [hb, if_true] at hcall
    rw [getAllBackups_trace, h2] at hcall
    simp only [List.nil_append, List.mem_append, List.mem_singleton] at hcall
    rcases hcall with h | rfl
    · exact h3 call h
    · rfl

/-- The token of a pass: the token of the report when backups are enabled and
the report request succeeds, `null` otherwise. -/
theorem getExpiredItems_token (H : Host) (W : World) :
    (getExpiredItems H W []).1.backupToken
      = if (getSettings H).expireBackups.truthy = true then
          match W.reportResponse ((getAllChats H W []).2 ++ [Call.dataMaidReport]) with
          | .ok body => body.token
          | .notOk => JSVal.null
          | .threw => JSVal.null
        else JSVal.null := by
  unfold getExpiredItems
  cases hb : (getSettings H).expireBackups.truthy
  · simp only [hb, Bool.false_eq_true, if_false]
  · simp only [hb, if_true]
    unfold getAllBackups
    cases hr : W.reportResponse ((getAllChats H W []).2 ++ [Call.dataMaidReport]) <;> simp [hr]

theorem autoExpireChats_spec (H : Host) (W : World) :
    autoExpireChats H W
      = if (getExpiredItems H W []).1.expiredChats.length = 0
            ∧ (getExpiredItems H W []).1.expiredBackups.length = 0 then
          { trace := (getExpiredItems H W []).2
              ++ finalizeRequests (getExpiredItems H W []).1.backupToken
            summary := none }
        else
          { trace := (getExpiredItems H W []).2
              ++ deletionRequests (getExpiredItems H W []).1.expiredChats
                  (getExpiredItems H W []).1.expiredBackups
                  (getExpiredItems H W []).1.backupToken
              ++ [Call.toastSuccess]
            summary := some
              { chatSuccessCount :=
                  (deleteAnswers W (getExpiredItems H W []).1.expiredChats
                    (getExpiredItems H W []).2).countP Fetched.isOk
                chatFailCount :=
                  (deleteAnswers W (getExpiredItems H W []).1.expiredChats
                    (getExpiredItems H W []).2).countP (fun r => !r.isOk)
                backupSuccessCount :=
                  (backupDeletionStep W (getExpiredItems H W []).1.expiredBackups
                    (getExpiredItems H W []).1.backupToken
                    ((getExpiredItems H W []).2
                      ++ (getExpiredItems H W []).1.expiredChats.filterMap deleteCallOf)).1.1
                backupFailCount :=
                  (backupDeletionStep W (getExpiredItems H W []).1.expiredBackups
                    (getExpiredItems H W []).1.backupToken
                    ((getExpiredItems H W []).2
                      ++ (getExpiredItems H W []).1.expiredChats.filterMap deleteCallOf)).1.2
                failedChats := [] } } := by
  unfold autoExpireChats
  by_cases he : (getExpiredItems H W []).1.expiredChats.length = 0
      ∧ (getExpiredItems H W []).1.expiredBackups.length = 0
  · simp only [he, and_self, if_true, finalizeIfToken_eq]
  · simp only [he, if_false,
      autoExpireChatsLoop_spec H W _ _ _ _ (getExpiredItems_chats H W []),
      finalizeIfToken_eq, backupDeletionStep_trace, deletionRequests, Nat.zero_add,
      List.append_assoc]

theorem previewExpiredChats_spec (H : Host) (W : World) :
    previewExpiredChats H W
      = if (getExpiredItems H W []).1.expiredChats.length = 0
            ∧ (getExpiredItems H W []).1.expiredBackups.length = 0 then
          { trace := (getExpiredItems H W []).2 ++ [Call.popupText]
              ++ finalizeRequests (getExpiredItems H W []).1.backupToken
            summary := none }
        else if W.confirm ((getExpiredItems H W []).2 ++ [Call.popupConfirm]) = true then
          { trace := (getExpiredItems H W []).2 ++ [Call.popupConfirm]
              ++ deletionRequests (getExpiredItems H W []).1.expiredChats
                  (getExpiredItems H W []).1.expiredBackups
                  (getExpiredItems H W []).1.backupToken
              ++ [Call.popupText]
            summary :=
              (expireChats H W (getExpiredItems H W []).1.expiredChats
                (getExpiredItems H W []).1.expiredBackups
                (getExpiredItems H W []).1.backupToken
                ((getExpiredItems H W []).2 ++ [Call.popupConfirm])).1.toOption }
        else
          { trace := (getExpiredItems H W []).2 ++ [Call.popupConfirm]
              ++ finalizeRequests (getExpiredItems H W []).1.backupToken
            summary := none } := by
  unfold previewExpiredChats
  have hchats := getExpiredItems_chats H W []
  by_cases he : (getExpiredItems H W []).1.expiredChats.length = 0
      ∧ (getExpiredItems H W []).1.expiredBackups.length = 0
  · simp only [he, and_self, if_true, finalizeIfToken_eq]
  · simp only [he, if_false, previewNames_of_hasOwner _ (fun c hc => (hchats c hc).1)]
    cases hc : W.confirm ((getExpiredItems H W []).2 ++ [Call.popupConfirm])
    · simp only [Bool.false_eq_true, if_false, finalizeIfToken_eq]
    · simp only [if_true, expireChats_spec H W _ _ _ _ _ hchats, Except.toOption]

/-! ## Claims about the passes -/

theorem currentChatOf_of_no_character (H : Host)
    (h : H.characterId = JSVal.undefined ∨ H.characterId = JSVal.null) :
    currentChatOf H = JSVal.undefined := by
  unfold currentChatOf
  rcases h with h | h <;> rw [h] <;> rfl

theorem skipsOpenChat_string_characterId (H : Host) (c : ChatInfo) (s : String)
    (chat gid : JSVal) (hg : c.isGroup = false) :
    skipsOpenChat H c (JSVal.str s) chat gid = false := by
  unfold skipsOpenChat
  cases hc : c.character <;> simp [hg]

theorem skipsOpenChat_group_undefined (H : Host) (c : ChatInfo) (cid gid : JSVal)
    (hg : c.isGroup = true) : skipsOpenChat H c cid JSVal.undefined gid = false := by
  unfold skipsOpenChat
  simp [hg]

/-- C5 (failing input): the group `party` is open and no character is selected
(`characterId` is `undefined`); the group's open chat is stored as
`evening.jsonl` and is 100 days old.  `getExpiredItems` computes `currentChat`
as `context.characters[undefined]?.chat`, which is `undefined`, so the test of
`filterExpiredChats` for group candidates never holds: the open chat is in
`expiredChats`, and `autoExpireChats` requests its deletion. -/
theorem getExpiredItems_returns_open_group_chat :
    currentChatOf partyHost = JSVal.undefined
    ∧ (getExpiredItems partyHost partyWorld []).1.expiredChats = [openChatOfParty]
    ∧ filterExpiredChats partyHost [openChatOfParty] 90 JSVal.undefined
        (JSVal.str "evening") (JSVal.str "1700000000000") = []
    ∧ Call.groupChatsDelete "evening.jsonl" ∈ (autoExpireChats partyHost partyWorld).trace := by
  decide

theorem isFinalize_of_isQuery (call : Call) (h : call.isQuery = true) :
    call.isFinalize = false := by
  cases call <;> first | rfl | cases h

theorem deletionRequests_split (xs : List ChatInfo) (bs : List Backup) (tok : JSVal) :
    ∀ call ∈ xs.filterMap deleteCallOf ++ backupRequests bs tok, call.isFinalize = false := by
  intro call hcall
  rcases List.mem_append.mp hcall with h | h
  · obtain ⟨c, _, hc⟩ := List.mem_filterMap.mp h
    unfold deleteCallOf at hc
    cases hg : c.isGroup
    · rw [hg] at hc
      cases hch : c.character with
      | none => rw [hch] at hc; cases hc
      | some ch => rw [hch] at hc; cases hc; rfl
    · rw [hg] at hc
      cases hc
      rfl
  · unfold backupRequests at h
    split at h
    · rw [List.mem_singleton] at h
      rw [h]
      rfl
    · cases h

theorem finalizedOnce_of_parts (tok : JSVal) (before after : List Call)
    (ht : tok.truthy = true)
    (hb : ∀ call ∈ before, call.isFinalize = false)
    (ha : ∀ call ∈ after, call.isFinalize = false ∧ call.isDeletion = false) :
    FinalizedOnce tok (before ++ finalizeRequests tok ++ after) := by
  refine ⟨before, after, ?_, hb, ha⟩
  simp [finalizeRequests, ht]

theorem neverFinalized_of_parts (tok : JSVal) (before after : List Call)
    (ht : tok.truthy = false)
    (hb : ∀ call ∈ before, call.isFinalize = false)
    (ha : ∀ call ∈ after, call.isFinalize = false) :
    NeverFinalized (before ++ finalizeRequests tok ++ after) := by
  intro call hcall
  simp only [finalizeRequests, ht, Bool.false_eq_true, if_false, List.append_nil,
    List.mem_append] at hcall
  rcases hcall with h | h
  · exact hb call h
  · exact ha call h

/-- The trace of either pass is a finalize-free part, the finalize request
when there is a token, and a part without finalize and deletion requests. -/
theorem pass_trace_shape (H : Host) (W : World) :
    (∃ before after : List Call,
      (autoExpireChats H W).trace
        = before ++ finalizeRequests (getExpiredItems H W []).1.backupToken ++ after
      ∧ (∀ call ∈ before, call.isFinalize = false)
      ∧ (∀ call ∈ after, call.isFinalize = false ∧ call.isDeletion = false))
    ∧ (∃ before after : List Call,
      (previewExpiredChats H W).trace
        = before ++ finalizeRequests (getExpiredItems H W []).1.backupToken ++ after
      ∧ (∀ call ∈ before, call.isFinalize = false)
      ∧ (∀ call ∈ after, call.isFinalize = false ∧ call.isDeletion = false)) := by
  have hq : ∀ call ∈ (getExpiredItems H W []).2, call.isFinalize = false :=
    fun call h => isFinalize_of_isQuery call (getExpiredItems_trace H W call h)
  have hd := deletionRequests_split (getExpiredItems H W []).1.expiredChats
    (getExpiredItems H W []).1.expiredBackups (getExpiredItems H W []).1.backupToken
  constructor
  · rw [autoExpireChats_spec]
    split
    · exact ⟨(getExpiredItems H W []).2, [], by simp, hq, by simp⟩
    · refine ⟨(getExpiredItems H W []).2
          ++ ((getExpiredItems H W []).1.expiredChats.filterMap deleteCallOf
            ++ backupRequests (getExpiredItems H W []).1.expiredBackups
                (getExpiredItems H W []).1.backupToken),
        [Call.toastSuccess], by simp [deletionRequests], ?_, ?_⟩
      · intro call hcall
        rcases List.mem_append.mp hcall with h | h
        · exact hq call h
        · exact hd call h
      · intro call hcall
        rw [List.mem_singleton] at hcall
        rw [hcall]
        exact ⟨rfl, rfl⟩
  · rw [previewExpiredChats_spec]
    split
    · refine ⟨(getExpiredItems H W []).2 ++ [Call.popupText], [], by simp, ?_, by simp⟩
      intro call hcall
      rcases List.mem_append.mp hcall with h | h
      · exact hq call h
      · rw [List.mem_singleton] at h
        rw [h]
        rfl
    · split
      · refine ⟨(getExpiredItems H W []).2 ++ [Call.popupConfirm]
            ++ ((getExpiredItems H W []).1.expiredChats.filterMap deleteCallOf
              ++ backupRequests (getExpiredItems H W []).1.expiredBackups
                  (getExpiredItems H W []).1.backupToken),
          [Call.popupText], by simp [deletionRequests], ?_, ?_⟩
        · intro call hcall
          rcases List.mem_append.mp hcall with h | h
          · rcases List.mem_append.mp h with h1 | h1
            · exact hq call h1
            · rw [List.mem_singleton] at h1
              rw [h1]
              rfl
          · exact hd call h
        · intro call hcall
          rw [List.mem_singleton] at hcall
          rw [hcall]
          exact ⟨rfl, rfl⟩
      · refine ⟨(getExpiredItems H W []).2 ++ [Call.popupConfirm], [], by simp, ?_, by simp⟩
        intro call hcall
        rcases List.mem_append.mp hcall with h | h
        · exact hq call h
        · rw [List.mem_singleton] at h
          rw [h]
          rfl

/-- C8: in a pass of `autoExpireChats` and in a pass of `previewExpiredChats`
(which runs `expireChats` when the user confirms), for every world: when
backups are enabled and the report request is answered with a token, the trace
holds exactly one finalize request, it carries that token and no deletion
request follows it; when no token is obtained (backups disabled, the report
request failed, or its token is empty) the trace holds no finalize request. -/
theorem token_finalized_exactly_once (H : Host) (W : World) :
    (∀ body : ReportBody, (getSettings H).expireBackups.truthy = true →
        W.reportResponse ((getAllChats H W []).2 ++ [Call.dataMaidReport]) = .ok body →
        body.token.truthy = true →
        FinalizedOnce body.token (autoExpireChats H W).trace
        ∧ FinalizedOnce body.token (previewExpiredChats H W).trace)
    ∧ (((getSettings H).expireBackups.truthy = false
          ∨ ∀ body : ReportBody,
              W.reportResponse ((getAllChats H W []).2 ++ [Call.dataMaidReport]) = .ok body →
              body.token.truthy = false) →
        NeverFinalized (autoExpireChats H W).trace
        ∧ NeverFinalized (previewExpiredChats H W).trace) := by
  obtain ⟨⟨b1, a1, e1, hb1, ha1⟩, ⟨b2, a2, e2, hb2, ha2⟩⟩ := pass_trace_shape H W
  have htok := getExpiredItems_token H W
  constructor
  · intro body hs hr ht
    rw [if_pos hs, hr] at htok
    simp only at htok
    rw [e1, e2, htok]
    exact ⟨finalizedOnce_of_parts body.token b1 a1 ht hb1 ha1,
      finalizedOnce_of_parts body.token b2 a2 ht hb2 ha2⟩
  · intro hno
    have hfalse : (getExpiredItems H W []).1.backupToken.truthy = false := by
      rw [htok]
      rcases hno with h | h
      · rw [h]
        rfl
      · split
        · cases hr : W.reportResponse ((getAllChats H W []).2 ++ [Call.dataMaidReport]) with
          | ok body => exact h body hr
          | notOk => rfl
          | threw => rfl
        · rfl
    rw [e1, e2]
    exact ⟨neverFinalized_of_parts _ b1 a1 hfalse hb1 (fun c hc => (ha1 c hc).1),
      neverFinalized_of_parts _ b2 a2 hfalse hb2 (fun c hc => (ha2 c hc).1)⟩

/-- C8 (witness): backups enabled, the report answered with the token `tok-1`,
every deletion failing, the user confirming. -/
theorem token_finalized_exactly_once_witness :
    FinalizedOnce (JSVal.str "tok-1") (autoExpireChats backupsHost (exampleWorld .threw true)).trace
    ∧ FinalizedOnce (JSVal.str "tok-1")
        (previewExpiredChats backupsHost (exampleWorld .threw true)).trace :=
  (token_finalized_exactly_once backupsHost (exampleWorld .threw true)).1
    { chatBackups := some [stampedBackup 1], token := JSVal.str "tok-1" }
    (by decide) (by rfl) (by decide)

theorem filterMap_deleteCallOf (xs : List ChatInfo) (h : ∀ c ∈ xs, hasOwner c = true) :
    (xs.filterMap deleteCallOf).map some = xs.map deleteCallOf := by
  induction xs with
  | nil => rfl
  | cons c rest ih =>
    have hc := h c (List.mem_cons_self _ _)
    have hrest : ∀ c' ∈ rest, hasOwner c' = true :=
      fun c' hc' => h c' (List.mem_cons_of_mem _ hc')
    have hl := deleteCallOf_toList_length c hc
    cases hd : deleteCallOf c with
    | none => rw [hd] at hl; simp at hl
    | some call => simp [List.filterMap_cons, hd, ih hrest]

theorem deleteAnswers_worldAnswering (W : World) (start : Nat) (xs : List ChatInfo) :
    ∀ (answers : List (Fetched Unit)) (k : Nat) (t : List Call),
      (∀ c ∈ xs, hasOwner c = true) → t.length = start + k →
      k + xs.length = answers.length →
      deleteAnswers (worldAnswering W start answers) xs t = answers.drop k := by
  induction xs with
  | nil =>
    intro answers k t _ _ hlen
    simp only [List.length_nil, Nat.add_zero] at hlen
    simp [deleteAnswers, hlen]
  | cons c rest ih =>
    intro answers k t h ht hlen
    have hc := h c (List.mem_cons_self _ _)
    have hrest : ∀ c' ∈ rest, hasOwner c' = true :=
      fun c' hc' => h c' (List.mem_cons_of_mem _ hc')
    have hl := deleteCallOf_toList_length c hc
    simp only [List.length_cons] at hlen
    have hk : k < answers.length := by omega
    have ht1 : (t ++ (deleteCallOf c).toList).length = start + (k + 1) := by
      rw [List.length_append, hl, ht]
      omega
    simp only [deleteAnswers]
    rw [ih answers (k + 1) _ hrest ht1 (by omega)]
    have hidx : (t ++ (deleteCallOf c).toList).length - (start + 1) = k := by omega
    show answers.getD ((t ++ (deleteCallOf c).toList).length - (start + 1)) Fetched.threw
      :: answers.drop (k + 1) = answers.drop k
    rw [hidx, List.getD_eq_getElem _ _ hk]
    exact (List.drop_eq_getElem_cons hk).symm

/-- C9: for a list of expired conversations (each with its owner object and an
expired timestamp, as `getExpiredItems` produces them) and every world, the
chat loops of `expireChats` and `autoExpireChats` issue one delete request per
candidate, in list order, whatever the answers are; `chatSuccessCount` is the
number of answers with `ok` set, `chatFailCount` the number of the others
(response not ok, or a thrown transport error), their sum is the list length,
and `failedChats` lists `<owner name>: <file_name>` of the failed candidates in
order.  A pass of `autoExpireChats` that finds something to delete issues,
after its queries, one delete request per expired chat it found, in order, and
reports a summary with those counts; a pass that finds nothing issues no
delete request and reports nothing.  Every assignment of answers to the
requests is the answer list of some world.  One candidate whose delete fails
gives 0 successes and 1 failure. -/
theorem chat_deletes_attempted_once_and_counted (H : Host) (W : World) (N : Int)
    (expiredChats : List ChatInfo) (expiredBackups : List Backup) (backupToken : JSVal)
    (t : List Call)
    (hexp : ∀ c ∈ expiredChats, hasOwner c = true ∧ pushesExpired H c N = true) :
    ((expiredChats.filterMap deleteCallOf).map some = expiredChats.map deleteCallOf
      ∧ (expireChatsLoop H W expiredChats
            { chatSuccessCount := 0, chatFailCount := 0, failedChats := [] } t).2
          = t ++ expiredChats.filterMap deleteCallOf
      ∧ (autoExpireChatsLoop H W expiredChats (0, 0) t).2
          = t ++ expiredChats.filterMap deleteCallOf)
    ∧ (∃ s : Summary,
        (expireChats H W expiredChats expiredBackups backupToken t).1 = .ok s
        ∧ s.chatSuccessCount = (deleteAnswers W expiredChats t).countP Fetched.isOk
        ∧ s.chatFailCount = (deleteAnswers W expiredChats t).countP (fun r => !r.isOk)
        ∧ s.chatSuccessCount + s.chatFailCount = expiredChats.length
        ∧ s.failedChats
            = ((expiredChats.zip (deleteAnswers W expiredChats t)).filter
                (fun p => !p.2.isOk)).map (fun p => failedLabel p.1))
    ∧ (autoExpireChatsLoop H W expiredChats (0, 0) t).1
        = .ok ((deleteAnswers W expiredChats t).countP Fetched.isOk,
               (deleteAnswers W expiredChats t).countP (fun r => !r.isOk))
    ∧ (∀ (items : ExpiredItems) (found : List Call),
        getExpiredItems H W [] = (items, found) →
        ¬ (items.expiredChats.length = 0 ∧ items.expiredBackups.length = 0) →
        (items.expiredChats.filterMap deleteCallOf).map some
            = items.expiredChats.map deleteCallOf
        ∧ (autoExpireChats H W).trace
            = found ++ items.expiredChats.filterMap deleteCallOf
              ++ backupRequests items.expiredBackups items.backupToken
              ++ finalizeRequests items.backupToken ++ [Call.toastSuccess]
        ∧ ∃ s : Summary, (autoExpireChats H W).summary = some s
            ∧ s.chatSuccessCount
                = (deleteAnswers W items.expiredChats found).countP Fetched.isOk
            ∧ s.chatFailCount
                = (deleteAnswers W items.expiredChats found).countP (fun r => !r.isOk)
            ∧ s.chatSuccessCount + s.chatFailCount = items.expiredChats.length)
    ∧ (∀ (items : ExpiredItems) (found : List Call),
        getExpiredItems H W [] = (items, found) →
        items.expiredChats.length = 0 ∧ items.expiredBackups.length = 0 →
        autoExpireChats H W
          = { trace := found ++ finalizeRequests items.backupToken, summary := none })
    ∧ (∀ answers : List (Fetched Unit), answers.length = expiredChats.length →
        deleteAnswers (worldAnswering W t.length answers) expiredChats t = answers)
    ∧ (∀ c : ChatInfo, expiredChats = [c] →
        (W.deleteResponse (t ++ (deleteCallOf c).toList)).isOk = false →
        ∃ s : Summary,
          (expireChats H W expiredChats expiredBackups backupToken t).1 = .ok s
          ∧ s.chatSuccessCount = 0 ∧ s.chatFailCount = 1
          ∧ s.failedChats = [failedLabel c]) := by
  have hown : ∀ c ∈ expiredChats, hasOwner c = true := fun c hc => (hexp c hc).1
  refine ⟨⟨filterMap_deleteCallOf expiredChats hown, ?_, ?_⟩, ?_, ?_, ?_, ?_, ?_, ?_⟩
  · rw [expireChatsLoop_spec H W N expiredChats _ t hexp]
  · rw [autoExpireChatsLoop_spec H W N expiredChats _ t hexp]
  · refine ⟨_, by rw [expireChats_spec H W N expiredChats expiredBackups backupToken t hexp],
      rfl, rfl, ?_, rfl⟩
    simp only
    rw [countP_isOk_add, deleteAnswers_length]
  · rw [autoExpireChatsLoop_spec H W N expiredChats _ t hexp]
    simp
  · intro items found hitems hne
    have hchats := getExpiredItems_chats H W []
    rw [autoExpireChats_spec]
    simp only [hitems] at hchats ⊢
    rw [if_neg hne]
    refine ⟨filterMap_deleteCallOf items.expiredChats (fun c hc => (hchats c hc).1), ?_,
      _, rfl, rfl, rfl, ?_⟩
    · simp only [deletionRequests, List.append_assoc]
    · simp only
      rw [countP_isOk_add, deleteAnswers_length]
  · intro items found hitems hempty
    rw [autoExpireChats_spec]
    simp only [hitems]
    rw [if_pos hempty]
  · intro answers hlen
    have := deleteAnswers_worldAnswering W t.length expiredChats answers 0 t hown rfl
      (by omega)
    simpa using this
  · intro c hc hfail
    subst hc
    refine ⟨_, by rw [expireChats_spec H W N [c] expiredBackups backupToken t hexp], ?_, ?_, ?_⟩
    · simp [deleteAnswers, hfail]
    · simp [deleteAnswers, hfail]
    · simp [deleteAnswers, hfail]

/-- C9 (witness): one expired chat of `seraphina` whose delete request throws,
handed to `expireChats`, and found by a pass of `autoExpireChats`. -/
theorem chat_deletes_attempted_once_and_counted_witness :
    (∃ s : Summary,
      (expireChats seraphinaHost (exampleWorld .threw true) [otherChatOfSeraphina 91] []
        JSVal.null []).1 = .ok s
      ∧ s.chatSuccessCount = 0 ∧ s.chatFailCount = 1
      ∧ s.failedChats = [failedLabel (otherChatOfSeraphina 91)])
    ∧ (autoExpireChats seraphinaHost (exampleWorld .threw true)).trace
        = [Call.chatsSearch (JSVal.str "seraphina.png") JSVal.null,
           Call.chatsDelete "older.jsonl" (JSVal.str "seraphina.png"),
           Call.toastSuccess]
    ∧ (∃ s : Summary,
        (autoExpireChats seraphinaHost (exampleWorld .threw true)).summary = some s
        ∧ s.chatSuccessCount = 0 ∧ s.chatFailCount = 1) :=
  ⟨(chat_deletes_attempted_once_and_counted seraphinaHost (exampleWorld .threw true) 90
      [otherChatOfSeraphina 91] [] JSVal.null []
      (by decide)).2.2.2.2.2.2 (otherChatOfSeraphina 91) rfl (by decide),
    ((chat_deletes_attempted_once_and_counted seraphinaHost (exampleWorld .threw true) 90
      [otherChatOfSeraphina 91] [] JSVal.null [] (by decide)).2.2.2.1
      (getExpiredItems seraphinaHost (exampleWorld .threw true) []).1
      (getExpiredItems seraphinaHost (exampleWorld .threw true) []).2
      rfl (by decide)).2.1.trans (by decide),
    let ⟨s, hs, h1, h2, _⟩ :=
      ((chat_deletes_attempted_once_and_counted seraphinaHost (exampleWorld .threw true) 90
        [otherChatOfSeraphina 91] [] JSVal.null [] (by decide)).2.2.2.1
        (getExpiredItems seraphinaHost (exampleWorld .threw true) []).1
        (getExpiredItems seraphinaHost (exampleWorld .threw true) []).2
        rfl (by decide)).2.2
    ⟨s, hs, h1.trans (by decide), h2.trans (by decide)⟩⟩

/-- C10: after the chat loop, `expireChats` and `autoExpireChats` issue a backup
delete request iff the list of expired backups is non-empty and the token is
truthy; it is one request, carrying the hash of every expired backup in list
order and the token; the counts are `(n, 0)` when its response is ok, `(0, n)`
when it is not ok or the request throws, and `(0, 0)` when no request is
issued, `n` being the list length.  A pass of `autoExpireChats` that finds
something to delete has that request, when due, between its chat deletes and
the finalize, and reports those counts; a pass that finds nothing issues no
delete request. -/
theorem backups_deleted_in_one_batch (H : Host) (W : World) (N : Int)
    (expiredChats : List ChatInfo) (expiredBackups : List Backup) (backupToken : JSVal)
    (t : List Call)
    (hexp : ∀ c ∈ expiredChats, hasOwner c = true ∧ pushesExpired H c N = true) :
    (backupDeletionStep W expiredBackups backupToken
        (t ++ expiredChats.filterMap deleteCallOf)).2
      = t ++ expiredChats.filterMap deleteCallOf
        ++ (if expiredBackups.length > 0 ∧ backupToken.truthy = true then
              [Call.dataMaidDelete (expiredBackups.map Backup.hash) backupToken]
            else [])
    ∧ (backupDeletionStep W expiredBackups backupToken
        (t ++ expiredChats.filterMap deleteCallOf)).1
      = (if expiredBackups.length > 0 ∧ backupToken.truthy = true then
          if (W.backupsDeleteResponse (t ++ expiredChats.filterMap deleteCallOf
                ++ [Call.dataMaidDelete (expiredBackups.map Backup.hash) backupToken])).isOk
          then (expiredBackups.length, 0) else (0, expiredBackups.length)
        else (0, 0))
    ∧ (∃ s : Summary,
        (expireChats H W expiredChats expiredBackups backupToken t).1 = .ok s
        ∧ (s.backupSuccessCount, s.backupFailCount)
          = (backupDeletionStep W expiredBackups backupToken
              (t ++ expiredChats.filterMap deleteCallOf)).1)
    ∧ (expireChats H W expiredChats expiredBackups backupToken t).2
      = t ++ expiredChats.filterMap deleteCallOf
        ++ (if expiredBackups.length > 0 ∧ backupToken.truthy = true then
              [Call.dataMaidDelete (expiredBackups.map Backup.hash) backupToken]
            else [])
        ++ finalizeRequests backupToken ++ [Call.popupText]
    ∧ (∀ (items : ExpiredItems) (found : List Call),
        getExpiredItems H W [] = (items, found) →
        ¬ (items.expiredChats.length = 0 ∧ items.expiredBackups.length = 0) →
        (autoExpireChats H W).trace
          = found ++ items.expiredChats.filterMap deleteCallOf
            ++ (if items.expiredBackups.length > 0 ∧ items.backupToken.truthy = true then
                  [Call.dataMaidDelete (items.expiredBackups.map Backup.hash)
                    items.backupToken]
                else [])
            ++ finalizeRequests items.backupToken ++ [Call.toastSuccess]
        ∧ ∃ s : Summary, (autoExpireChats H W).summary = some s
            ∧ (s.backupSuccessCount, s.backupFailCount)
              = (if items.expiredBackups.length > 0 ∧ items.backupToken.truthy = true then
                  if (W.backupsDeleteResponse
                        (found ++ items.expiredChats.filterMap deleteCallOf
                          ++ [Call.dataMaidDelete (items.expiredBackups.map Backup.hash)
                                items.backupToken])).isOk
                  then (items.expiredBackups.length, 0)
                  else (0, items.expiredBackups.length)
                else (0, 0)))
    ∧ (∀ (items : ExpiredItems) (found : List Call),
        getExpiredItems H W [] = (items, found) →
        items.expiredChats.length = 0 ∧ items.expiredBackups.length = 0 →
        autoExpireChats H W
          = { trace := found ++ finalizeRequests items.backupToken, summary := none }) := by
  refine ⟨?_, ?_, ?_, ?_, ?_, ?_⟩
  · rw [backupDeletionStep_eq]
    rfl
  · rw [backupDeletionStep_eq]
  · exact ⟨_, by rw [expireChats_spec H W N expiredChats expiredBackups backupToken t hexp],
      rfl⟩
  · rw [expireChats_spec H W N expiredChats expiredBackups backupToken t hexp]
    simp [deletionRequests, backupRequests]
  · intro items found hitems hne
    rw [autoExpireChats_spec]
    simp only [hitems]
    rw [if_neg hne]
    refine ⟨?_, _, rfl, ?_⟩
    · simp only [deletionRequests, backupRequests, List.append_assoc]
    · simp only
      rw [backupDeletionStep_eq]
  · intro items found hitems hempty
    rw [autoExpireChats_spec]
    simp only [hitems]
    rw [if_pos hempty]

/-- C10 (witness): one expired chat, one expired backup, the token `tok-1` and
a server that rejects every delete request, handed to `expireChats`, and found
by a pass of `autoExpireChats`. -/
theorem backups_deleted_in_one_batch_witness :
    (expireChats seraphinaHost (exampleWorld .notOk true) [otherChatOfSeraphina 91]
        [stampedBackup 1] (JSVal.str "tok-1") []).2
      = [Call.chatsDelete "older.jsonl" (JSVal.str "seraphina.png"),
         Call.dataMaidDelete ["9f2c"] (JSVal.str "tok-1"),
         Call.dataMaidFinalize (JSVal.str "tok-1"),
         Call.popupText]
    ∧ (autoExpireChats backupsHost (exampleWorld .notOk true)).trace
      = [Call.chatsSearch (JSVal.str "seraphina.png") JSVal.null,
         Call.dataMaidReport,
         Call.chatsDelete "older.jsonl" (JSVal.str "seraphina.png"),
         Call.dataMaidDelete ["9f2c"] (JSVal.str "tok-1"),
         Call.dataMaidFinalize (JSVal.str "tok-1"),
         Call.toastSuccess]
    ∧ (∃ s : Summary,
        (autoExpireChats backupsHost (exampleWorld .notOk true)).summary = some s
        ∧ (s.backupSuccessCount, s.backupFailCount) = (0, 1)) :=
  ⟨((backups_deleted_in_one_batch seraphinaHost (exampleWorld .notOk true) 90
      [otherChatOfSeraphina 91] [stampedBackup 1] (JSVal.str "tok-1") []
      (by decide)).2.2.2.1).trans (by decide),
    ((backups_deleted_in_one_batch backupsHost (exampleWorld .notOk true) 90
      [otherChatOfSeraphina 91] [stampedBackup 1] (JSVal.str "tok-1") [] (by decide)).2.2.2.2.1
      (getExpiredItems backupsHost (exampleWorld .notOk true) []).1
      (getExpiredItems backupsHost (exampleWorld .notOk true) []).2
      rfl (by decide)).1.trans (by decide),
    let ⟨s, hs, h⟩ :=
      ((backups_deleted_in_one_batch backupsHost (exampleWorld .notOk true) 90
        [otherChatOfSeraphina 91] [stampedBackup 1] (JSVal.str "tok-1") []
        (by decide)).2.2.2.2.1
        (getExpiredItems backupsHost (exampleWorld .notOk true) []).1
        (getExpiredItems backupsHost (exampleWorld .notOk true) []).2
        rfl (by decide)).2
    ⟨s, hs, h.trans (by decide)⟩⟩

/-! ## Claims about the threshold -/

theorem getExpiredItems_expirationDays (H : Host) (W : World) (t : List Call) :
    (getExpiredItems H W t).1.expirationDays
      = parseIntOrDefault (getSettings H).expirationDays := by
  unfold getExpiredItems
  cases hb : (getSettings H).expireBackups.truthy <;> simp [hb]

theorem parseIntOrDefault_of_parse (v : JSVal) (n : Int) (h : parseInt v = some n)
    (hn : n ≠ 0) : parseIntOrDefault v = n := by
  simp [parseIntOrDefault, h, hn]

theorem parseIntOrDefault_of_falsy (v : JSVal)
    (h : parseInt v = some 0 ∨ parseInt v = none) :
    parseIntOrDefault v = DEFAULT_EXPIRATION_DAYS := by
  rcases h with h | h <;> simp [parseIntOrDefault, h]

theorem parseIntOrDefault_ne_zero (v : JSVal) : parseIntOrDefault v ≠ 0 := by
  unfold parseIntOrDefault
  cases h : parseInt v with
  | none => simp [DEFAULT_EXPIRATION_DAYS]
  | some n =>
    by_cases hn : n = 0
    · simp [hn, DEFAULT_EXPIRATION_DAYS]
    · simp [hn]

/-- C11 (failing input): the stored `expirationDays` is `-5` (as a number, and
as the string `'-5'`).  `parseInt(-5) || 90` is `-5`, so `getExpiredItems` hands
the threshold `-5` to the filters, and a chat written at the instant of the
clock (0 whole days old) is in `expiredChats`; `autoExpireChats` requests its
deletion.  For the same value typed into the days field, `onExpirationDaysInput`
stores `Math.max(1, -5) = 1`. -/
theorem getExpiredItems_negative_threshold :
    (getExpiredItems (thresholdHost (JSVal.num (-5))) freshWorld []).1.expirationDays = -5
    ∧ (getExpiredItems (thresholdHost (JSVal.str "-5")) freshWorld []).1.expirationDays = -5
    ∧ diffDays (thresholdHost (JSVal.num (-5))).now { valid := true, wall := daysAgo 0 } = 0
    ∧ (getExpiredItems (thresholdHost (JSVal.num (-5))) freshWorld []).1.expiredChats
        = [freshChatOfSeraphina]
    ∧ Call.chatsDelete "older.jsonl" (JSVal.str "seraphina.png")
        ∈ (autoExpireChats (thresholdHost (JSVal.num (-5))) freshWorld).trace
    ∧ (getSettings (onExpirationDaysInput (JSVal.num (-5)) seraphinaHost)).expirationDays
        = JSVal.num 1 := by
  decide

/-- C12 (counterexample): the field holds `0`, which parses to the integer 0;
`0 || 90` is `90`, and the stored value is `Math.max(1, 90) = 90`, not
`max(1, 0) = 1`. -/
theorem onExpirationDaysInput_zero_stores_default :
    parseInt (JSVal.str "0") = some 0
    ∧ (getSettings (onExpirationDaysInput (JSVal.str "0") seraphinaHost)).expirationDays
        = JSVal.num 90
    ∧ (getSettings (onExpirationDaysInput (JSVal.str "0") seraphinaHost)).expirationDays
        ≠ JSVal.num (max 1 0) := by
  decide

/-- C12 (amended): for every value of the field, `onExpirationDaysInput` stores
`max(1, v)` when the value parses to an integer `v` other than 0 (so `v` itself
when `v ≥ 1` and 1 when `v` is negative), and the default 90 when it parses to 0
or does not parse; the stored value is always an integer that is at least 1,
and the other two settings keep their values. -/
theorem onExpirationDaysInput_stores_clamped (fieldValue : JSVal) (H : Host) :
    (∀ v : Int, parseInt fieldValue = some v → v ≠ 0 →
        (getSettings (onExpirationDaysInput fieldValue H)).expirationDays
          = JSVal.num (max 1 v)
        ∧ (1 ≤ v →
            (getSettings (onExpirationDaysInput fieldValue H)).expirationDays = JSVal.num v)
        ∧ (v < 0 →
            (getSettings (onExpirationDaysInput fieldValue H)).expirationDays = JSVal.num 1))
    ∧ (parseInt fieldValue = some 0 ∨ parseInt fieldValue = none →
        (getSettings (onExpirationDaysInput fieldValue H)).expirationDays = JSVal.num 90)
    ∧ (∃ n : Int,
        (getSettings (onExpirationDaysInput fieldValue H)).expirationDays = JSVal.num n
        ∧ 1 ≤ n)
    ∧ (getSettings (onExpirationDaysInput fieldValue H)).expireBackups
        = (getSettings H).expireBackups
    ∧ (getSettings (onExpirationDaysInput fieldValue H)).autoExpire
        = (getSettings H).autoExpire := by
  have hstored : (getSettings (onExpirationDaysInput fieldValue H)).expirationDays
      = JSVal.num (max 1 (parseIntOrDefault fieldValue)) := rfl
  refine ⟨?_, ?_, ⟨max 1 (parseIntOrDefault fieldValue), hstored, le_max_left _ _⟩, rfl, rfl⟩
  · intro v hv hv0
    rw [hstored, parseIntOrDefault_of_parse fieldValue v hv hv0]
    refine ⟨rfl, ?_, ?_⟩
    · intro h1
      rw [max_eq_right h1]
    · intro hneg
      rw [max_eq_left (by omega)]
  · intro h
    rw [hstored, parseIntOrDefault_of_falsy fieldValue h]
    rfl

/-- C12 (witness): the field holds `-3`. -/
theorem onExpirationDaysInput_stores_clamped_witness :
    (getSettings (onExpirationDaysInput (JSVal.str "-3") seraphinaHost)).expirationDays
      = JSVal.num (max 1 (-3)) :=
  ((onExpirationDaysInput_stores_clamped (JSVal.str "-3") seraphinaHost).1 (-3)
    (by decide) (by decide)).1

/-! ## The per-owner breakdown -/

theorem ownValue_eq_none (obj : CountObject) (k : String) :
    ownValue obj k = none ↔ k ∉ obj.map Prod.fst := by
  induction obj with
  | nil => simp [ownValue]
  | cons p rest ih =>
    obtain ⟨k', c⟩ := p
    by_cases h : k' = k
    · simp [ownValue, h]
    · simp [ownValue, h, ih, Ne.symm h]

theorem ownValue_of_mem (obj : CountObject) (k : String) (c : JSCount)
    (hn : (obj.map Prod.fst).Nodup) (hm : (k, c) ∈ obj) : ownValue obj k = some c := by
  induction obj with
  | nil => cases hm
  | cons p rest ih =>
    obtain ⟨k', c'⟩ := p
    rw [List.map_cons, List.nodup_cons] at hn
    rcases List.mem_cons.mp hm with h | h
    · cases h
      simp [ownValue]
    · have hk : k' ≠ k := by
        intro e
        apply hn.1
        rw [e]
        exact List.mem_map.mpr ⟨(k, c), h, rfl⟩
      simp [ownValue, hk, ih hn.2 h]

theorem mem_of_ownValue (obj : CountObject) (k : String) (c : JSCount)
    (h : ownValue obj k = some c) : (k, c) ∈ obj := by
  induction obj with
  | nil => cases h
  | cons p rest ih =>
    obtain ⟨k', c'⟩ := p
    by_cases hk : k' = k
    · simp [ownValue, hk] at h
      simp [hk, h]
    · simp [ownValue, hk] at h
      exact List.mem_cons_of_mem _ (ih h)

theorem ownValue_append (a b : CountObject) (k : String) :
    ownValue (a ++ b) k
      = match ownValue a k with
        | some c => some c
        | none => ownValue b k := by
  induction a with
  | nil => simp [ownValue]
  | cons p rest ih =>
    obtain ⟨k', c'⟩ := p
    by_cases hk : k' = k
    · simp [ownValue, hk]
    · simp [ownValue, hk, ih]

theorem ownValue_map_update (obj : CountObject) (name k : String) (c : JSCount) :
    ownValue (obj.map (fun p => if p.1 = name then (p.1, c) else p)) k
      = if k = name then (ownValue obj k).map (fun _ => c) else ownValue obj k := by
  induction obj with
  | nil => simp [ownValue]
  | cons p rest ih =>
    obtain ⟨k', c'⟩ := p
    rw [List.map_cons]
    by_cases hn : k' = name
    · have hf : (if (k', c').1 = name then ((k', c').1, c) else (k', c')) = (k', c) :=
        if_pos hn
      rw [hf]
      simp only [ownValue]
      by_cases hk : k' = k
      · have hkn : k = name := hk ▸ hn
        rw [if_pos hk, if_pos hk, if_pos hkn]
        rfl
      · rw [if_neg hk, if_neg hk, ih]
    · have hf : (if (k', c').1 = name then ((k', c').1, c) else (k', c')) = (k', c') :=
        if_neg hn
      rw [hf]
      simp only [ownValue]
      by_cases hk : k' = k
      · have hkn : ¬ k = name := hk ▸ hn
        rw [if_pos hk, if_pos hk, if_neg hkn]
      · rw [if_neg hk, if_neg hk, ih]

theorem map_fst_map_update (obj : CountObject) (name : String) (c : JSCount) :
    (obj.map (fun p => if p.1 = name then (p.1, c) else p)).map Prod.fst
      = obj.map Prod.fst := by
  induction obj with
  | nil => rfl
  | cons p rest ih =>
    by_cases hn : p.1 = name
    · simp [hn, ih]
    · simp [hn, ih]

theorem getProperty_plain (obj : CountObject) (name : String)
    (hplain : name ∉ objectPrototypeKeys) :
    getProperty obj name
      = match ownValue obj name with
        | some c => PropertyValue.own c
        | none => PropertyValue.undefined := by
  have hp : name ≠ "__proto__" := by
    intro h
    apply hplain
    rw [h]
    decide
  unfold getProperty
  rw [if_neg hp]
  cases ownValue obj name with
  | some c => rfl
  | none => simp [hplain]

theorem setProperty_plain (obj : CountObject) (name : String) (c : JSCount)
    (hplain : name ∉ objectPrototypeKeys) :
    setProperty obj name c
      = if (ownValue obj name).isSome then
          obj.map (fun p => if p.1 = name then (p.1, c) else p)
        else obj ++ [(name, c)] := by
  have hp : name ≠ "__proto__" := by
    intro h
    apply hplain
    rw [h]
    decide
  unfold setProperty
  rw [if_neg hp]

/-- One step of the counting loop on a plain name: a present counter `n`
becomes `n + 1` in place, an absent one is created last with the value 1. -/
theorem countName_plain (obj : CountObject) (name : String)
    (hplain : name ∉ objectPrototypeKeys) (hobj : PlainCounts obj) :
    PlainCounts (countName obj name)
    ∧ (∀ k, storedCount (ownValue (countName obj name) k)
        = storedCount (ownValue obj k) + if k = name then 1 else 0)
    ∧ (∀ k, k ∈ (countName obj name).map Prod.fst ↔ k ∈ obj.map Prod.fst ∨ k = name) := by
  obtain ⟨hnodup, hpos⟩ := hobj
  cases hv : ownValue obj name with
  | some c =>
    obtain ⟨n, hc, hn⟩ := hpos (name, c) (mem_of_ownValue obj name c hv)
    simp only at hc
    subst hc
    have hstep : countName obj name
        = obj.map (fun p => if p.1 = name then (p.1, JSCount.nat (n + 1)) else p) := by
      unfold countName
      have ht : (getProperty obj name).truthy = true := by
        rw [getProperty_plain obj name hplain, hv]
        simp [PropertyValue.truthy]
        omega
      simp only [ht, if_true]
      rw [setProperty_plain obj name _ hplain, hv, getProperty_plain obj name hplain, hv]
      rfl
    rw [hstep]
    refine ⟨⟨by rw [map_fst_map_update]; exact hnodup, ?_⟩, ?_, ?_⟩
    · intro p hp
      obtain ⟨q, hq, rfl⟩ := List.mem_map.mp hp
      by_cases hqn : q.1 = name
      · rw [if_pos hqn]
        exact ⟨n + 1, rfl, Nat.succ_pos n⟩
      · rw [if_neg hqn]
        exact hpos q hq
    · intro k
      rw [ownValue_map_update]
      by_cases hk : k = name
      · subst hk
        simp [hv, storedCount, JSCount.toNat]
      · simp [hk]
    · intro k
      rw [map_fst_map_update]
      constructor
      · exact fun h => Or.inl h
      · rintro (h | h)
        · exact h
        · rw [h]
          exact List.mem_map.mpr ⟨(name, JSCount.nat n), mem_of_ownValue obj name _ hv, rfl⟩
  | none =>
    have hnot : name ∉ obj.map Prod.fst := (ownValue_eq_none obj name).mp hv
    have hmap : obj.map (fun p => if p.1 = name then (p.1, JSCount.nat 1) else p) = obj := by
      have : ∀ p ∈ obj, (fun p : String × JSCount =>
          if p.1 = name then (p.1, JSCount.nat 1) else p) p = p := by
        intro p hp
        have hne : p.1 ≠ name := by
          intro e
          apply hnot
          rw [← e]
          exact List.mem_map.mpr ⟨p, hp, rfl⟩
        simp [hne]
      rw [List.map_congr_left this, List.map_id']
    have hstep : countName obj name = obj ++ [(name, JSCount.nat 1)] := by
      unfold countName
      have ht : (getProperty obj name).truthy = false := by
        rw [getProperty_plain obj name hplain, hv]
        rfl
      simp only [ht, Bool.false_eq_true, if_false]
      have hset : setProperty obj name (JSCount.nat 0) = obj ++ [(name, JSCount.nat 0)] := by
        rw [setProperty_plain obj name _ hplain, hv]
        rfl
      rw [hset]
      have hv0 : ownValue (obj ++ [(name, JSCount.nat 0)]) name = some (JSCount.nat 0) := by
        rw [ownValue_append, hv]
        simp [ownValue]
      rw [setProperty_plain _ name _ hplain, hv0, getProperty_plain _ name hplain, hv0]
      simp only [Option.isSome_some, if_true, PropertyValue.increment, List.map_append,
        List.map_cons, List.map_nil, Nat.zero_add]
      rw [hmap]
    rw [hstep]
    refine ⟨⟨?_, ?_⟩, ?_, ?_⟩
    · rw [List.map_append, List.nodup_append]
      refine ⟨hnodup, by simp, ?_⟩
      intro a ha hb
      simp at hb
      exact hnot (hb ▸ ha)
    · intro p hp
      rcases List.mem_append.mp hp with h | h
      · exact hpos p h
      · rw [List.mem_singleton] at h
        rw [h]
        exact ⟨1, rfl, Nat.one_pos⟩
    · intro k
      rw [ownValue_append]
      by_cases hk : k = name
      · subst hk
        simp [hv, ownValue, storedCount, JSCount.toNat]
      · cases hvk : ownValue obj k with
        | some c' => simp [hk]
        | none => simp [ownValue, Ne.symm hk, hk, storedCount]
    · intro k
      simp [List.map_append]

theorem foldl_countName_plain (names : List String) :
    ∀ obj : CountObject, (∀ n ∈ names, n ∉ objectPrototypeKeys) → PlainCounts obj →
      PlainCounts (names.foldl countName obj)
      ∧ (∀ k, storedCount (ownValue (names.foldl countName obj) k)
          = storedCount (ownValue obj k) + names.count k)
      ∧ (∀ k, k ∈ (names.foldl countName obj).map Prod.fst
          ↔ k ∈ obj.map Prod.fst ∨ k ∈ names) := by
  induction names with
  | nil => intro obj _ hobj; simp [hobj]
  | cons n rest ih =>
    intro obj hplain hobj
    obtain ⟨h1, h2, h3⟩ := countName_plain obj n (hplain n (List.mem_cons_self _ _)) hobj
    obtain ⟨i1, i2, i3⟩ := ih (countName obj n)
      (fun m hm => hplain m (List.mem_cons_of_mem _ hm)) h1
    rw [List.foldl_cons]
    refine ⟨i1, ?_, ?_⟩
    · intro k
      rw [i2 k, h2 k, List.count_cons]
      by_cases hk : k = n
      · subst hk
        simp
        omega
      · have : (n == k) = false := by simpa using Ne.symm hk
        simp [hk, this]
    · intro k
      rw [i3 k, h3 k, List.mem_cons]
      tauto

theorem orderedInsert_pairwise_of_mem {α : Type} (r : α → α → Prop) [DecidableRel r]
    (a : α) (s : List α) (hs : s.Pairwise r)
    (htot : ∀ b ∈ s, r a b ∨ r b a)
    (htrans : ∀ x ∈ a :: s, ∀ y ∈ a :: s, ∀ z ∈ a :: s, r x y → r y z → r x z) :
    (s.orderedInsert r a).Pairwise r := by
  induction s with
  | nil => simp
  | cons b s ih =>
    rw [List.pairwise_cons] at hs
    rw [List.orderedInsert]
    by_cases hab : r a b
    · rw [if_pos hab, List.pairwise_cons]
      refine ⟨?_, List.pairwise_cons.mpr hs⟩
      intro y hy
      rcases List.mem_cons.mp hy with rfl | hy'
      · exact hab
      · exact htrans a (by simp) b (by simp) y (by simp [hy']) hab (hs.1 y hy')
    · rw [if_neg hab, List.pairwise_cons]
      have hba : r b a := by
        rcases htot b (List.mem_cons_self _ _) with h | h
        · exact absurd h hab
        · exact h
      refine ⟨?_, ?_⟩
      · intro y hy
        rcases (List.mem_orderedInsert r).mp hy with rfl | hy'
        · exact hba
        · exact hs.1 y hy'
      · apply ih hs.2
        · intro c hc
          exact htot c (List.mem_cons_of_mem _ hc)
        · intro x hx y hy z hz
          have up : ∀ w, w ∈ a :: s → w ∈ a :: b :: s := by
            intro w hw
            rcases List.mem_cons.mp hw with rfl | h
            · simp
            · simp [h]
          exact htrans x (up x hx) y (up y hy) z (up z hz)

theorem insertionSort_pairwise_of_mem {α : Type} (r : α → α → Prop) [DecidableRel r]
    (l : List α)
    (htot : ∀ a ∈ l, ∀ b ∈ l, r a b ∨ r b a)
    (htrans : ∀ x ∈ l, ∀ y ∈ l, ∀ z ∈ l, r x y → r y z → r x z) :
    (l.insertionSort r).Pairwise r := by
  induction l with
  | nil => simp
  | cons a l ih =>
    rw [List.insertionSort]
    apply orderedInsert_pairwise_of_mem
    · apply ih
      · intro x hx y hy
        exact htot x (List.mem_cons_of_mem _ hx) y (List.mem_cons_of_mem _ hy)
      · intro x hx y hy z hz
        exact htrans x (List.mem_cons_of_mem _ hx) y (List.mem_cons_of_mem _ hy) z
          (List.mem_cons_of_mem _ hz)
    · intro b hb
      exact htot a (List.mem_cons_self _ _) b
        (List.mem_cons_of_mem _ ((List.mem_insertionSort r).mp hb))
    · have up : ∀ w, w ∈ a :: l.insertionSort r → w ∈ a :: l := by
        intro w hw
        rcases List.mem_cons.mp hw with rfl | h
        · simp
        · exact List.mem_cons_of_mem _ ((List.mem_insertionSort r).mp h)
      intro x hx y hy z hz
      exact htrans x (up x hx) y (up y hy) z (up z hz)

theorem objectEntries_perm (obj : CountObject) : (objectEntries obj).Perm obj := by
  unfold objectEntries
  refine ((List.perm_insertionSort _ _).append_right _).trans ?_
  exact List.filter_append_perm _ obj

theorem sortEntries_perm (lc : String → String → Int) (entries : List (String × JSCount)) :
    (sortEntries lc entries).Perm entries :=
  List.perm_insertionSort _ _

theorem compareEntries_nat (lc : String → String → Int) (a b : String) (x y : Nat) :
    compareEntries lc (a, JSCount.nat x) (b, JSCount.nat y) ≤ 0
      ↔ y < x ∨ (y = x ∧ lc a b ≤ 0) := by
  unfold compareEntries
  by_cases h : y = x
  · simp [h]
  · simp only [ne_eq, h, not_false_eq_true, if_true, false_and, or_false]
    omega

/-- The breakdown when no owner is named like a property of `Object.prototype`
and `localeCompare` is a consistent comparison: one entry per distinct owner
name, holding the number of expired chats of that name; the counts sum to the
number of expired chats; the entries descend by count, and entries with equal
counts ascend by name. -/
theorem sortedNames_of_plain_names (lc : String → String → Int)
    (expiredChats : List ChatInfo)
    (hown : ∀ c ∈ expiredChats, hasOwner c = true)
    (hplain : ∀ c ∈ expiredChats, ownerNameOf c ∉ objectPrototypeKeys)
    (htot : ∀ a b, lc a b ≤ 0 ∨ lc b a ≤ 0)
    (htrans : ∀ a b c, lc a b ≤ 0 → lc b c ≤ 0 → lc a c ≤ 0) :
    ∃ entries : List (String × JSCount),
      sortedNames lc expiredChats = .ok entries
      ∧ (entries.map Prod.fst).Perm ((expiredChats.map ownerNameOf).dedup)
      ∧ (∀ e ∈ entries, e.2 = JSCount.nat ((expiredChats.map ownerNameOf).count e.1))
      ∧ (entries.map (fun e => e.2.toNat)).sum = expiredChats.length
      ∧ entries.Pairwise (fun a b =>
          b.2.toNat ≤ a.2.toNat ∧ (a.2.toNat = b.2.toNat → lc a.1 b.1 ≤ 0)) := by
  obtain ⟨⟨hnodup, hpos⟩, hcount, hkeys⟩ :=
    foldl_countName_plain (expiredChats.map ownerNameOf) []
      (by
        intro n hn
        obtain ⟨c, hc, rfl⟩ := List.mem_map.mp hn
        exact hplain c hc)
      ⟨by simp, by simp⟩
  have hperm : (sortEntries lc (objectEntries
      ((expiredChats.map ownerNameOf).foldl countName []))).Perm
      ((expiredChats.map ownerNameOf).foldl countName []) :=
    (sortEntries_perm lc _).trans (objectEntries_perm _)
  have hentry : ∀ e ∈ (expiredChats.map ownerNameOf).foldl countName [],
      e.2 = JSCount.nat ((expiredChats.map ownerNameOf).count e.1) := by
    intro e he
    obtain ⟨n, hn, _⟩ := hpos e he
    have hv := ownValue_of_mem _ e.1 e.2 hnodup he
    have hc := hcount e.1
    rw [hv] at hc
    simp only [storedCount, ownValue, Nat.zero_add] at hc
    rw [hn] at hc ⊢
    simp only [JSCount.toNat] at hc
    rw [hc]
  have hentry' : ∀ e ∈ sortEntries lc (objectEntries
      ((expiredChats.map ownerNameOf).foldl countName [])),
      e.2 = JSCount.nat ((expiredChats.map ownerNameOf).count e.1) :=
    fun e he => hentry e (hperm.mem_iff.mp he)
  have hnames : ((sortEntries lc (objectEntries
      ((expiredChats.map ownerNameOf).foldl countName []))).map Prod.fst).Perm
      ((expiredChats.map ownerNameOf).dedup) := by
    refine (hperm.map Prod.fst).trans ?_
    rw [List.perm_ext_iff_of_nodup hnodup (List.nodup_dedup _)]
    intro k
    rw [hkeys k, List.mem_dedup]
    simp
  refine ⟨_, ?_, hnames, hentry', ?_, ?_⟩
  · unfold sortedNames
    rw [previewNames_of_hasOwner expiredChats hown]
  · have hmap : (sortEntries lc (objectEntries
        ((expiredChats.map ownerNameOf).foldl countName []))).map (fun e => e.2.toNat)
        = ((sortEntries lc (objectEntries
            ((expiredChats.map ownerNameOf).foldl countName []))).map Prod.fst).map
          (fun k => (expiredChats.map ownerNameOf).count k) := by
      rw [List.map_map]
      apply List.map_congr_left
      intro e he
      rw [Function.comp_apply, hentry' e he]
      rfl
    rw [hmap, (hnames.map _).sum_eq, List.sum_map_count_dedup_eq_length, List.length_map]
  · have hsorted : (sortEntries lc (objectEntries
        ((expiredChats.map ownerNameOf).foldl countName []))).Pairwise
        (fun a b => compareEntries lc a b ≤ 0) := by
      apply insertionSort_pairwise_of_mem
      · intro a ha b hb
        have ea := hentry a ((objectEntries_perm _).mem_iff.mp ha)
        have eb := hentry b ((objectEntries_perm _).mem_iff.mp hb)
        obtain ⟨ka, ca⟩ := a
        obtain ⟨kb, cb⟩ := b
        simp only at ea eb
        subst ea eb
        rw [compareEntries_nat, compareEntries_nat]
        rcases htot ka kb with h | h <;> omega
      · intro a ha b hb c hc
        have ea := hentry a ((objectEntries_perm _).mem_iff.mp ha)
        have eb := hentry b ((objectEntries_perm _).mem_iff.mp hb)
        have ec := hentry c ((objectEntries_perm _).mem_iff.mp hc)
        obtain ⟨ka, ca⟩ := a
        obtain ⟨kb, cb⟩ := b
        obtain ⟨kc, cc⟩ := c
        simp only at ea eb ec
        subst ea eb ec
        rw [compareEntries_nat, compareEntries_nat, compareEntries_nat]
        intro h1 h2
        rcases h1 with h1 | ⟨h1, l1⟩ <;> rcases h2 with h2 | ⟨h2, l2⟩
        · left; omega
        · left; omega
        · left; omega
        · right; exact ⟨by omega, htrans ka kb kc l1 l2⟩
    refine hsorted.imp_of_mem ?_
    intro a b ha hb hab
    have ea := hentry' a ha
    have eb := hentry' b hb
    obtain ⟨ka, ca⟩ := a
    obtain ⟨kb, cb⟩ := b
    simp only at ea eb
    subst ea eb
    rw [compareEntries_nat] at hab
    simp only [JSCount.toNat]
    rcases hab with h | ⟨h, l⟩
    · exact ⟨by omega, fun e => by omega⟩
    · exact ⟨by omega, fun _ => l⟩

/-- C13 (failing input): the expired conversations are chats of a character
named `constructor`.  With one chat, `chatsByName['constructor']` reads the
function inherited from `Object.prototype`, which is truthy, so the counter is
not set to 0, and `++` stores `NaN`: the breakdown is the single entry
`constructor` with the count `NaN`, not 1.  With three chats the second resets
the falsy `NaN` to 0 and the count is 2, not 3.  A character named `__proto__`
gets no entry at all. -/
theorem sortedNames_miscounts_prototype_names (lc : String → String → Int) :
    sortedNames lc [expiredChatOf "constructor" "a.jsonl"]
      = .ok [("constructor", JSCount.nan)]
    ∧ sortedNames lc
        [expiredChatOf "constructor" "a.jsonl", expiredChatOf "constructor" "b.jsonl",
         expiredChatOf "constructor" "c.jsonl"]
      = .ok [("constructor", JSCount.nat 2)]
    ∧ sortedNames lc [expiredChatOf "__proto__" "a.jsonl"] = .ok []
    ∧ pushesExpired seraphinaHost (expiredChatOf "constructor" "a.jsonl") 90 = true := by
  refine ⟨rfl, rfl, rfl, by decide⟩

theorem compareCodePoints_le (a b : String) : compareCodePoints a b ≤ 0 ↔ a ≤ b := by
  unfold compareCodePoints
  have hlt : a.data < b.data ↔ a < b := String.lt_iff_toList_lt.symm
  by_cases h1 : a.data < b.data
  · rw [if_pos h1]
    exact ⟨fun _ => le_of_lt (hlt.mp h1), fun _ => by decide⟩
  · rw [if_neg h1]
    by_cases h2 : a = b
    · rw [if_pos h2]
      exact ⟨fun _ => le_of_eq h2, fun _ => le_refl _⟩
    · rw [if_neg h2]
      constructor
      · intro h; exact absurd h (by decide)
      · intro h
        exact absurd (lt_of_le_of_ne h h2) (fun h' => h1 (hlt.mpr h'))

/-- The breakdown of three expired chats of two plain owners, by the general
statement for plain names. -/
theorem sortedNames_plain_example :
    ∃ entries : List (String × JSCount),
      sortedNames compareCodePoints
        [expiredChatOf "Bob" "a.jsonl", expiredChatOf "Alice" "b.jsonl",
         expiredChatOf "Bob" "c.jsonl"] = .ok entries
      ∧ (entries.map (fun e => e.2.toNat)).sum = 3 :=
  let ⟨entries, h1, _, _, h4, _⟩ :=
    sortedNames_of_plain_names compareCodePoints
      [expiredChatOf "Bob" "a.jsonl", expiredChatOf "Alice" "b.jsonl",
       expiredChatOf "Bob" "c.jsonl"]
      (by decide) (by decide)
      (fun a b => by
        rw [compareCodePoints_le, compareCodePoints_le]
        exact le_total a b)
      (fun a b c => by
        rw [compareCodePoints_le, compareCodePoints_le, compareCodePoints_le]
        exact le_trans)
  ⟨entries, h1, h4⟩

/-- The same breakdown, evaluated: Bob with two chats, then Alice with one. -/
theorem sortedNames_plain_value :
    sortedNames compareCodePoints
      [expiredChatOf "Bob" "a.jsonl", expiredChatOf "Alice" "b.jsonl",
       expiredChatOf "Bob" "c.jsonl"]
    = .ok [("Bob", JSCount.nat 2), ("Alice", JSCount.nat 1)] := by
  rfl

/-- For a candidate whose file name has `.jsonl` as its final extension only,
that is not the active conversation of the specification and whose `last_mes`
parses to the valid instant `m`: it is returned iff `now.diff(m, 'days')` is
strictly greater than the threshold. -/
theorem expiry_is_strict_for_plain_names (H : Host) (N : Int)
    (allChats : List ChatInfo) (cid chat gid : JSVal) (c : ChatInfo) (m : Moment)
    (hmem : c ∈ allChats)
    (hname : replaceJsonl c.chatData.file_name = stripExtension c.chatData.file_name)
    (hgroup : c.isGroup = true → ∃ g, c.group = some g ∧ g.id.truthy = true)
    (hactive : isActiveConversation H c cid chat gid = false)
    (hpresent : c.chatData.last_mes.truthy = true)
    (hparse : H.timestampToMoment c.chatData.last_mes = .ok m)
    (hvalid : m.valid = true) :
    c ∈ filterExpiredChats H allChats N cid chat gid ↔ diffDays H.now m > N := by
  rw [mem_filterExpiredChats, pushesExpired_of_parse H N c m hpresent hparse hvalid,
    skipsOpenChat_eq_isActiveConversation H c cid chat gid hname hgroup]
  exact ⟨fun h => h.2.2, fun h => ⟨hmem, hactive, h⟩⟩

/-- With the file names that have `.jsonl` as final extension only,
`filterExpiredChats` is the filter of the specification. -/
theorem filterExpiredChats_eq_filterConversations (H : Host) (N : Int)
    (allChats : List ChatInfo) (cid chat gid : JSVal)
    (hname : ∀ c ∈ allChats,
      replaceJsonl c.chatData.file_name = stripExtension c.chatData.file_name)
    (hgroup : ∀ c ∈ allChats, c.isGroup = true → ∃ g, c.group = some g ∧ g.id.truthy = true) :
    filterExpiredChats H allChats N cid chat gid
      = filterConversations H allChats N cid chat gid := by
  rw [filterExpiredChats_eq_filter]
  unfold filterConversations
  apply List.filter_congr
  intro c hc
  unfold keepsChat
  rw [skipsOpenChat_eq_isActiveConversation H c cid chat gid (hname c hc) (hgroup c hc)]

/-- C2 (failing input): the selected character is `mira`, whose open chat is
named `ab.jsonl`; her other chat `a.jsonlb`, stored as `a.jsonlb.jsonl`, is 91
whole days old and the threshold is 90.  The chat is not the active
conversation, yet `file_name.replace('.jsonl', '')` removes the first `.jsonl`
and yields `ab.jsonl`, which equals `currentChat`: the loop skips it and
`filterExpiredChats` returns nothing, where the claim has a non-active
conversation of `N + 1` days returned.  A chat with the plain name
`plain.jsonl` is returned at 91 days and not at 90. -/
theorem filterExpiredChats_skips_chat_that_is_not_open :
    currentChatOf miraHost = JSVal.str "ab.jsonl"
    ∧ isActiveConversation miraHost (shadowedChatOfMira 91)
        (JSVal.num 0) (JSVal.str "ab.jsonl") JSVal.undefined = false
    ∧ miraHost.timestampToMoment (shadowedChatOfMira 91).chatData.last_mes
        = .ok { valid := true, wall := daysAgo 91 }
    ∧ diffDays miraHost.now { valid := true, wall := daysAgo 91 } = 90 + 1
    ∧ replaceJsonl "a.jsonlb.jsonl" = "ab.jsonl"
    ∧ stripExtension "a.jsonlb.jsonl" = "a.jsonlb"
    ∧ filterExpiredChats miraHost [shadowedChatOfMira 91] 90
        (JSVal.num 0) (JSVal.str "ab.jsonl") JSVal.undefined = []
    ∧ filterExpiredChats miraHost [plainChatOfMira 91] 90
        (JSVal.num 0) (JSVal.str "ab.jsonl") JSVal.undefined = [plainChatOfMira 91]
    ∧ filterExpiredChats miraHost [plainChatOfMira 90] 90
        (JSVal.num 0) (JSVal.str "ab.jsonl") JSVal.undefined = [] := by
  refine ⟨by decide, by decide, rfl, by decide, by decide, by decide, by decide, by decide,
    by decide⟩

/-- C4 (failing input): the selected character is `seraphina`, whose open chat
`story.jsonl.bak` is stored as `story.jsonl.bak.jsonl` and is 100 days old; the
input also holds a chat of hers that is not open and is 91 days old; the
threshold is 90.  The sublist of the candidates that are not the active
conversation and are expired is the second chat alone, and
`filterExpiredChats` returns both: `file_name.replace('.jsonl', '')` yields
`story.bak.jsonl`, so the open chat is not skipped.  When the open chat has the
plain name `older`, its file `older.jsonl` is left out. -/
theorem filterExpiredChats_differs_from_filterConversations :
    isActiveConversation seraphinaHost openChatOfSeraphina
        (JSVal.num 0) (JSVal.str "story.jsonl.bak") JSVal.undefined = true
    ∧ filterConversations seraphinaHost [openChatOfSeraphina, otherChatOfSeraphina 91] 90
        (JSVal.num 0) (JSVal.str "story.jsonl.bak") JSVal.undefined
      = [otherChatOfSeraphina 91]
    ∧ filterExpiredChats seraphinaHost [openChatOfSeraphina, otherChatOfSeraphina 91] 90
        (JSVal.num 0) (JSVal.str "story.jsonl.bak") JSVal.undefined
      = [openChatOfSeraphina, otherChatOfSeraphina 91]
    ∧ filterExpiredChats seraphinaHost [otherChatOfSeraphina 91] 90
        (JSVal.num 0) (JSVal.str "story.jsonl.bak") JSVal.undefined
      = [otherChatOfSeraphina 91]
    ∧ filterExpiredChats seraphinaHost [otherChatOfSeraphina 91] 90
        (JSVal.num 0) (JSVal.str "older") JSVal.undefined = [] := by
  decide

end ExpireChats
